import Mathlib

/-!
Verification of the orchestration core of the awsmetagpt repository.

Shallow embedding of:
  * app/services/orchestration/models.py        (AgentTask, AgentInstance, enums)
  * app/services/orchestration/task_scheduler.py (TaskScheduler)
  * app/services/orchestration/agent_state_manager.py (AgentStateManager)
  * app/services/orchestration/orchestrator.py   (AgentOrchestrator.cancel_session)

Modelling conventions:
  * Python `datetime.now()` values are passed in explicitly as `Nat` timestamps.
  * Python dicts keep insertion order; they are modelled as lists in insertion
    order (`task_registry`, `agents`, `sessions`).
  * Python sets are modelled as duplicate-free lists; set iteration order is
    determinized to first-occurrence order, which is irrelevant to every
    property proved below.
  * Python exceptions are modelled with `Option`/`Except` results; `none` /
    `.error` corresponds to raising.
  * Shared mutable objects (an `AgentTask` referenced both by an agent's
    `current_task` field and by a registry) are modelled with an explicit task
    heap plus id references.
-/

namespace AwsMetaGPT

/-- models.py `TaskStatus` -/
inductive TaskStatus
  | pending
  | running
  | completed
  | failed
  | cancelled
deriving DecidableEq, Repr

/-- models.py `TaskPriority` -/
inductive TaskPriority
  | low
  | normal
  | high
  | critical
deriving DecidableEq, Repr

/-- models.py `AgentState` -/
inductive AgentState
  | idle
  | initializing
  | thinking
  | executing
  | waiting
  | completed
  | failed
  | terminated
deriving DecidableEq, Repr

/-- app/models/schemas.py `AgentRole` -/
inductive AgentRole
  | product_manager
  | architect
  | project_manager
  | engineer
  | qa_engineer
  | devops
deriving DecidableEq, Repr

/-- models.py `AgentTask` dataclass.  `context` dict is modelled as an
association list; datetimes as `Nat`; the opaque `result` payload as an
optional string. -/
structure AgentTask where
  id : String
  agent_role : AgentRole
  task_type : String
  description : String
  priority : TaskPriority
  status : TaskStatus
  dependencies : List String
  context : List (String × String)
  created_at : Nat
  started_at : Option Nat
  completed_at : Option Nat
  result : Option String
  error : Option String
  retry_count : Nat
  max_retries : Nat
deriving DecidableEq, Repr

/-- models.py `AgentTask.is_failed` -/
def AgentTask.is_failed (t : AgentTask) : Bool :=
  t.status == TaskStatus.failed

/-- models.py `AgentTask.is_completed` -/
def AgentTask.is_completed (t : AgentTask) : Bool :=
  t.status == TaskStatus.completed

/-- models.py `AgentTask.can_retry`:
`self.is_failed() and self.retry_count < self.max_retries` -/
def AgentTask.can_retry (t : AgentTask) : Bool :=
  t.is_failed && t.retry_count < t.max_retries

/-- task_scheduler.py `TaskScheduler`.  Only `task_registry` is state;
`dependency_graph` and `reverse_dependencies` are maintained by `add_task`
as `set(task.dependencies)` resp. the inverted edges, so they are derived
below (`depsOf`, `revDepsOf`). -/
structure TaskScheduler where
  task_registry : List AgentTask
deriving DecidableEq, Repr

namespace TaskScheduler

/-- `task_id in self.task_registry` / `self.task_registry.get(task_id)` -/
def findTask (s : TaskScheduler) (tid : String) : Option AgentTask :=
  s.task_registry.find? (fun t => t.id == tid)

/-- `set(self.task_registry.keys())` -/
def taskIds (s : TaskScheduler) : List String :=
  s.task_registry.map (fun t => t.id)

/-- `self.dependency_graph.get(node, set())`: the dependency set of a
registered task (Python builds it as `set(task.dependencies)`), empty for
unknown ids. -/
def depsOf (s : TaskScheduler) (tid : String) : List String :=
  match s.findTask tid with
  | some t => t.dependencies.dedup
  | none => []

/-- `self.reverse_dependencies.get(task_id, set())`: ids of registered tasks
that list `tid` among their dependencies (built incrementally by `add_task`). -/
def revDepsOf (s : TaskScheduler) (tid : String) : List String :=
  (s.task_registry.filter (fun t => t.dependencies.contains tid)).map (fun t => t.id)

/-- task_scheduler.py `TaskScheduler.add_task`; raises `TaskException` on a
duplicate id (modelled as `none`). -/
def add_task (s : TaskScheduler) (t : AgentTask) : Option TaskScheduler :=
  if s.task_registry.any (fun u => u.id == t.id) then none
  else some ⟨s.task_registry ++ [t]⟩

/-- task_scheduler.py `TaskScheduler._priority_value` -/
def priorityValue : TaskPriority → Nat
  | TaskPriority.low => 1
  | TaskPriority.normal => 2
  | TaskPriority.high => 3
  | TaskPriority.critical => 4

/-- One insertion step of a stable descending sort by `_priority_value`.
Python's `list.sort(key=..., reverse=True)` is a stable sort; a stable sort
is extensionally unique, so this insertion sort (which keeps earlier elements
first among equal keys) computes exactly Python's result. -/
def insertByPriority (t : AgentTask) : List AgentTask → List AgentTask
  | [] => [t]
  | u :: us =>
    if priorityValue u.priority ≤ priorityValue t.priority then t :: u :: us
    else u :: insertByPriority t us

/-- `ready_tasks.sort(key=lambda t: self._priority_value(t.priority), reverse=True)` -/
def sortByPriorityDesc : List AgentTask → List AgentTask
  | [] => []
  | t :: ts => insertByPriority t (sortByPriorityDesc ts)

/-- task_scheduler.py `TaskScheduler.get_ready_tasks`: Pending tasks whose
dependency set is a subset of `completed`, iterated in registry (insertion)
order, then stably sorted by priority descending. -/
def get_ready_tasks (s : TaskScheduler) (completed : List String) : List AgentTask :=
  sortByPriorityDesc (s.task_registry.filter (fun t =>
    t.status == TaskStatus.pending && t.dependencies.all (fun d => completed.contains d)))

/-- Replace the registered task with id `tid` by `f` applied to it (Python
mutates the shared `AgentTask` object in place). -/
def updateTask (s : TaskScheduler) (tid : String) (f : AgentTask → AgentTask) : TaskScheduler :=
  ⟨s.task_registry.map (fun u => if u.id == tid then f u else u)⟩

/-- task_scheduler.py `TaskScheduler.mark_task_completed`: raises for an
unknown id; sets status/completed_at and returns the Pending dependents. -/
def mark_task_completed (s : TaskScheduler) (tid : String) (now : Nat) :
    Option (TaskScheduler × List String) :=
  match s.findTask tid with
  | none => none
  | some _ =>
    let s' := s.updateTask tid (fun t =>
      { t with status := TaskStatus.completed, completed_at := some now })
    let newly := (s'.revDepsOf tid).filter (fun d =>
      match s'.findTask d with
      | some dt => dt.status == TaskStatus.pending
      | none => false)
    some (s', newly)

/-- task_scheduler.py `TaskScheduler.mark_task_failed`: raises for an unknown
id; sets status/error/completed_at of that task and nothing else. -/
def mark_task_failed (s : TaskScheduler) (tid : String) (err : String) (now : Nat) :
    Option TaskScheduler :=
  match s.findTask tid with
  | none => none
  | some _ =>
    some (s.updateTask tid (fun t =>
      { t with status := TaskStatus.failed, error := some err, completed_at := some now }))

/-- task_scheduler.py `TaskScheduler.can_retry_task` -/
def can_retry_task (s : TaskScheduler) (tid : String) : Bool :=
  match s.findTask tid with
  | none => false
  | some t => t.can_retry

/-- The field updates performed by `retry_task` on the task object. -/
def retryUpdate (t : AgentTask) : AgentTask :=
  { t with
    status := TaskStatus.pending
    retry_count := t.retry_count + 1
    error := none
    started_at := none
    completed_at := none }

/-- task_scheduler.py `TaskScheduler.retry_task`: raises for an unknown id or
when `can_retry()` is false. -/
def retry_task (s : TaskScheduler) (tid : String) : Option TaskScheduler :=
  match s.findTask tid with
  | none => none
  | some t =>
    if t.can_retry then some (s.updateTask tid retryUpdate)
    else none

/-- Structured rendering of the human-readable strings appended by
`validate_dependencies`. -/
inductive ValidationError
  | missingDeps (taskId : String) (missing : List String)
  | circularDependency (taskId : String)
deriving DecidableEq, Repr

/-- First phase of `validate_dependencies`: for each task (in registry order)
`missing_deps = dependencies - all_task_ids`; an error is appended when the
difference is nonempty. -/
def missingDepsErrors (s : TaskScheduler) : List ValidationError :=
  s.task_registry.filterMap (fun t =>
    let missing := t.dependencies.dedup.filter (fun d => !(s.taskIds.contains d))
    if missing.isEmpty then none else some (ValidationError.missingDeps t.id missing))

/-- Fuel bound for the DFS: the recursion pushes a node not yet visited at
every level and only ever touches registered ids and declared dependency ids,
so the nesting depth never exceeds this count. -/
def dfsFuel (s : TaskScheduler) : Nat :=
  s.task_registry.length + (s.task_registry.map (fun t => t.dependencies)).flatten.length + 1

mutual
/-- task_scheduler.py nested `has_cycle(node)`: white/gray/black DFS with a
`visited` set and a `rec_stack` set, both threaded through the traversal
(Python closes over them and mutates in place; note that on a `True` result
the recursion stack is deliberately left as is, exactly as in the source,
where the early `return True` skips `rec_stack.remove(node)`). -/
def hasCycleFrom (s : TaskScheduler) (fuel : Nat) (node : String)
    (visited recStack : List String) : Bool × List String × List String :=
  if recStack.contains node then (true, visited, recStack)
  else if visited.contains node then (false, visited, recStack)
  else
    match fuel with
    | 0 => (true, visited, recStack)
    | fuel' + 1 =>
      match hasCycleList s fuel' (s.depsOf node) (node :: visited) (node :: recStack) with
      | (true, v, r) => (true, v, r)
      | (false, v, r) => (false, v, r.erase node)
termination_by (fuel, 0)

/-- The `for neighbor in self.dependency_graph.get(node, set())` loop of
`has_cycle`, with the early `return True`. -/
def hasCycleList (s : TaskScheduler) (fuel : Nat) (nodes : List String)
    (visited recStack : List String) : Bool × List String × List String :=
  match nodes with
  | [] => (false, visited, recStack)
  | n :: ns =>
    match hasCycleFrom s fuel n visited recStack with
    | (true, v, r) => (true, v, r)
    | (false, v, r) => hasCycleList s fuel ns v r
termination_by (fuel, nodes.length + 1)
end

/-- Second phase of `validate_dependencies`:
`for task_id in self.task_registry: if task_id not in visited: if has_cycle(task_id): errors.append(...)`. -/
def cycleScan (s : TaskScheduler) : List String → List String → List String → List ValidationError
  | [], _, _ => []
  | tid :: rest, visited, recStack =>
    if visited.contains tid then cycleScan s rest visited recStack
    else
      match hasCycleFrom s (s.dfsFuel) tid visited recStack with
      | (true, v, r) => ValidationError.circularDependency tid :: cycleScan s rest v r
      | (false, v, r) => cycleScan s rest v r

/-- task_scheduler.py `TaskScheduler.validate_dependencies`: the missing
dependency errors followed by the cycle errors. -/
def validate_dependencies (s : TaskScheduler) : List ValidationError :=
  s.missingDepsErrors ++ cycleScan s s.taskIds [] []

/-- `in_degree[k]` lookup; Python ints are modelled as `Int`. -/
def degGet (m : List (String × Int)) (k : String) : Int :=
  match m.find? (fun p => p.1 == k) with
  | some p => p.2
  | none => 0

/-- `in_degree[k] -= 1` -/
def degDec (m : List (String × Int)) (k : String) : List (String × Int) :=
  m.map (fun p => if p.1 == k then (p.1, p.2 - 1) else p)

/-- The inner loop of `get_execution_order`:
`for dependent in self.reverse_dependencies.get(current, set()):
   in_degree[dependent] -= 1; if in_degree[dependent] == 0: queue.append(dependent)`. -/
def processDependents : List String → List (String × Int) → List String →
    List (String × Int) × List String
  | [], deg, queue => (deg, queue)
  | d :: ds, deg, queue =>
    let deg' := degDec deg d
    let queue' := if degGet deg' d == 0 then queue ++ [d] else queue
    processDependents ds deg' queue'

/-- Priority of a registered task id (`self.task_registry[tid].priority`);
the scheduler only ever queries registered ids, the default mirrors
`_priority_value`'s own `.get(priority, 2)` default. -/
def prioOf (s : TaskScheduler) (tid : String) : Nat :=
  match s.findTask tid with
  | some t => priorityValue t.priority
  | none => 2

/-- Stable descending insertion for the ready queue (see `insertByPriority`
for why insertion sort computes exactly Python's stable `list.sort`). -/
def insertIdByPrio (s : TaskScheduler) (tid : String) : List String → List String
  | [] => [tid]
  | u :: us =>
    if prioOf s u ≤ prioOf s tid then tid :: u :: us
    else u :: insertIdByPrio s tid us

/-- `queue.sort(key=lambda tid: self._priority_value(...), reverse=True)` -/
def sortIdsByPrioDesc (s : TaskScheduler) : List String → List String
  | [] => []
  | t :: ts => insertIdByPrio s t (sortIdsByPrioDesc s ts)

/-- The `while queue:` loop of `get_execution_order` (Kahn's algorithm):
sort the queue by priority, pop the head into the result, decrement the
in-degrees of its dependents.  Each iteration pops exactly one element and
every id is enqueued at most once, so `|registry| + 1` fuel never runs out. -/
def kahnLoop (s : TaskScheduler) : Nat → List String → List (String × Int) → List String →
    List String
  | 0, _, _, result => result
  | fuel + 1, queue, deg, result =>
    match sortIdsByPrioDesc s queue with
    | [] => result
    | current :: rest =>
      let p := processDependents (s.revDepsOf current) deg rest
      kahnLoop s fuel p.2 p.1 (result ++ [current])

/-- task_scheduler.py `TaskScheduler.get_execution_order`: Kahn's algorithm;
raises `OrchestrationException` (modelled as `.error`) when not every task
was ordered. -/
def get_execution_order (s : TaskScheduler) : Except String (List String) :=
  let deg := s.task_registry.map (fun t => (t.id, (t.dependencies.dedup.length : Int)))
  let queue := (deg.filter (fun p => p.2 == 0)).map (fun p => p.1)
  let result := kahnLoop s (s.task_registry.length + 1) queue deg []
  if result.length == s.task_registry.length then Except.ok result
  else Except.error "Cannot determine execution order due to cycles"

end TaskScheduler

/-- Scheduler operations whose interleavings realise the task lifecycle
(Failed, retry, Completed); used to state trace properties. -/
inductive SchedOp
  | completeOp (tid : String) (now : Nat)
  | failOp (tid : String) (err : String) (now : Nat)
  | retryOp (tid : String)
deriving DecidableEq, Repr

/-- Apply one scheduler operation (`none` = the Python call raised). -/
def applySchedOp (op : SchedOp) (s : TaskScheduler) : Option TaskScheduler :=
  match op with
  | SchedOp.completeOp tid now => (s.mark_task_completed tid now).map (fun p => p.1)
  | SchedOp.failOp tid err now => s.mark_task_failed tid err now
  | SchedOp.retryOp tid => s.retry_task tid

/-- Run a list of scheduler operations; all must succeed. -/
def runSchedOps : List SchedOp → TaskScheduler → Option TaskScheduler
  | [], s => some s
  | op :: ops, s =>
    match applySchedOp op s with
    | some s' => runSchedOps ops s'
    | none => none

/-- Number of (successful) `retry_task` invocations for `tid` in a trace. -/
def countRetries (tid : String) (ops : List SchedOp) : Nat :=
  (ops.filter (fun op =>
    match op with
    | SchedOp.retryOp t => t == tid
    | _ => false)).length

/-- models.py `AgentInstance`.  Python's `current_task : Optional[AgentTask]`
holds a reference to a shared task object; it is modelled as the task id,
resolved in an explicit task heap (`ASMState.tasks`).  The `context` and
`metrics` dicts carry no behaviour used here and are modelled as association
lists. -/
structure AgentInstance where
  id : String
  role : AgentRole
  state : AgentState
  current_task : Option String
  completed_tasks : List String
  failed_tasks : List String
  created_at : Nat
  last_activity : Nat
  workspace_path : Option String
  context : List (String × String)
  metrics : List (String × String)
deriving DecidableEq, Repr

/-- models.py `AgentInstance.is_available`:
`self.state in [AgentState.IDLE, AgentState.COMPLETED]` -/
def AgentInstance.is_available (a : AgentInstance) : Bool :=
  a.state == AgentState.idle || a.state == AgentState.completed

/-- models.py `AgentInstance.is_busy`:
`self.state in [AgentState.EXECUTING, AgentState.THINKING]` -/
def AgentInstance.is_busy (a : AgentInstance) : Bool :=
  a.state == AgentState.executing || a.state == AgentState.thinking

/-- agent_state_manager.py `AgentStateManager` together with the heap of
shared `AgentTask` objects its agents reference. -/
structure ASMState where
  tasks : List AgentTask
  agents : List AgentInstance
deriving DecidableEq, Repr

namespace ASMState

/-- `self.agents.get(agent_id)` -/
def getAgent (st : ASMState) (aid : String) : Option AgentInstance :=
  st.agents.find? (fun a => a.id == aid)

/-- The shared task object with id `tid`. -/
def getTask (st : ASMState) (tid : String) : Option AgentTask :=
  st.tasks.find? (fun t => t.id == tid)

/-- In-place mutation of the agent object with id `aid`. -/
def updateAgent (st : ASMState) (aid : String) (f : AgentInstance → AgentInstance) : ASMState :=
  { st with agents := st.agents.map (fun a => if a.id == aid then f a else a) }

/-- In-place mutation of the shared task object with id `tid`. -/
def updateTaskObj (st : ASMState) (tid : String) (f : AgentTask → AgentTask) : ASMState :=
  { st with tasks := st.tasks.map (fun t => if t.id == tid then f t else t) }

/-- agent_state_manager.py `AgentStateManager.assign_task`: raises (`none`)
when the agent is unknown or not available; otherwise stores the task
reference, sets the agent Executing and touches `last_activity`
(`update_activity`).  The task object itself is not modified. -/
def assign_task (st : ASMState) (aid tid : String) (now : Nat) : Option ASMState :=
  match st.getAgent aid with
  | none => none
  | some a =>
    if !a.is_available then none
    else
      some (st.updateAgent aid (fun b =>
        { b with current_task := some tid, state := AgentState.executing, last_activity := now }))

/-- agent_state_manager.py `AgentStateManager.complete_task`: raises when the
agent is unknown or has no `current_task`; otherwise appends the task id to
`completed_tasks`, stores `result` on the shared task object, clears
`current_task`, sets the agent Completed and touches `last_activity`. -/
def complete_task (st : ASMState) (aid : String) (result : Option String) (now : Nat) :
    Option ASMState :=
  match st.getAgent aid with
  | none => none
  | some a =>
    match a.current_task with
    | none => none
    | some tid =>
      let st1 := st.updateTaskObj tid (fun t => { t with result := result })
      some (st1.updateAgent aid (fun b =>
        { b with
          completed_tasks := b.completed_tasks ++ [tid]
          current_task := none
          state := AgentState.completed
          last_activity := now }))

/-- agent_state_manager.py `AgentStateManager.fail_task`: raises when the
agent is unknown or has no `current_task`; otherwise appends the task id to
`failed_tasks`, stores `error` on the shared task object, clears
`current_task`, sets the agent Failed and touches `last_activity`. -/
def fail_task (st : ASMState) (aid : String) (err : String) (now : Nat) :
    Option ASMState :=
  match st.getAgent aid with
  | none => none
  | some a =>
    match a.current_task with
    | none => none
    | some tid =>
      let st1 := st.updateTaskObj tid (fun t => { t with error := some err })
      some (st1.updateAgent aid (fun b =>
        { b with
          failed_tasks := b.failed_tasks ++ [tid]
          current_task := none
          state := AgentState.failed
          last_activity := now }))

end ASMState

/-- models.py `OrchestrationSession`.  `agents` and `tasks` hold references to
objects shared with the `AgentStateManager` resp. `TaskScheduler`, modelled as
id lists; `status` is the plain Python string field. -/
structure OrchSession where
  id : String
  status : String
  progress : Nat
  message : String
  created_at : Nat
  updated_at : Option Nat
  agents : List String
  tasks : List String
deriving DecidableEq, Repr

/-- models.py `OrchestrationSession.update_progress` -/
def OrchSession.update_progress (s : OrchSession) (p : Nat) (msg : String) (now : Nat) :
    OrchSession :=
  { s with progress := p, message := msg, updated_at := some now }

/-- orchestrator.py `AgentOrchestrator`: the session map plus the agent
manager's agent heap and the task scheduler it drives.  Session `agents` ids
refer to `manager.agents` (the shared `AgentInstance` objects); session
`tasks` ids refer to `sched.task_registry`. -/
structure OrchState where
  sessions : List OrchSession
  manager : ASMState
  sched : TaskScheduler
deriving DecidableEq, Repr

/-- `session.status in ["completed", "failed", "cancelled"]` -/
def terminalStatuses : List String := ["completed", "failed", "cancelled"]

/-- orchestrator.py `AgentOrchestrator.cancel_session`: returns `False` and
changes nothing for an unknown or already terminal session; otherwise sets the
session status to "cancelled", resets progress via `update_progress`, and runs
`set_agent_state(agent.id, TERMINATED)` for every session agent whose state is
Executing or Thinking (the `_on_agent_state_change` callback is a no-op for
TERMINATED).  Session agents are registered in the manager (shared objects),
so the `set_agent_state` lookups succeed.  The task scheduler is not touched. -/
def OrchState.cancel_session (st : OrchState) (sid : String) (now : Nat) :
    Bool × OrchState :=
  match st.sessions.find? (fun s => s.id == sid) with
  | none => (false, st)
  | some s =>
    if terminalStatuses.contains s.status then (false, st)
    else
      let s' := OrchSession.update_progress { s with status := "cancelled" }
        0 "Session cancelled by user" now
      let sessions' := st.sessions.map (fun u => if u.id == sid then s' else u)
      let agents' := st.manager.agents.map (fun a =>
        if s.agents.contains a.id && (a.state == AgentState.executing
            || a.state == AgentState.thinking)
        then { a with state := AgentState.terminated, last_activity := now }
        else a)
      (true, { st with
        sessions := sessions'
        manager := { st.manager with agents := agents' } })

/-! ### Derived predicates used to state the properties -/

namespace TaskScheduler

/-- `add_task` refuses duplicate ids, so every reachable scheduler has
pairwise distinct task ids. -/
def WellFormed (s : TaskScheduler) : Prop := s.taskIds.Nodup

/-- Every declared dependency id resolves to a registered task. -/
def Resolved (s : TaskScheduler) : Prop :=
  ∀ t ∈ s.task_registry, ∀ d ∈ t.dependencies, d ∈ s.taskIds

/-- The dependency relation: `v` is a declared dependency of the registered
task `u`. -/
def EdgeD (s : TaskScheduler) (u v : String) : Prop := v ∈ s.depsOf u

/-- A nonempty directed cycle in the dependency relation: the list
`a :: rest` walks dependency edges and the last element has an edge back to
`a`. -/
def IsCycle (s : TaskScheduler) (l : List String) : Prop :=
  ∃ a rest, l = a :: rest ∧ List.Chain (EdgeD s) a (rest ++ [a])

def Acyclic (s : TaskScheduler) : Prop := ∀ l, ¬ IsCycle s l

/-- Every member of `res` appears after all of its dependencies. -/
def TopoOrdered (s : TaskScheduler) (res : List String) : Prop :=
  ∀ l1 u l2, res = l1 ++ u :: l2 → ∀ d ∈ s.depsOf u, d ∈ l1

/-- Same property in snoc-inductive form (convenient for the loop proofs). -/
inductive TopoBuilt (s : TaskScheduler) : List String → Prop
  | nil : TopoBuilt s []
  | snoc (r : List String) (c : String) :
      TopoBuilt s r → (∀ d ∈ s.depsOf c, d ∈ r) → TopoBuilt s (r ++ [c])

/-- Loop invariant of `kahnLoop`: the accumulated `result` is a duplicate-free
topologically ordered list of registered ids, the queue holds exactly the
not-yet-emitted tasks whose dependencies are all emitted, and `deg` counts
the not-yet-emitted dependencies of every task. -/
structure KahnInv (s : TaskScheduler) (queue : List String) (deg : List (String × Int))
    (result : List String) : Prop where
  resNodup : result.Nodup
  resSub : ∀ r ∈ result, r ∈ s.taskIds
  qNodup : queue.Nodup
  qSub : ∀ q ∈ queue, q ∈ s.taskIds
  qNotRes : ∀ q ∈ queue, q ∉ result
  degVal : ∀ tid ∈ s.taskIds,
    degGet deg tid = (((s.depsOf tid).filter (fun d => !(result.contains d))).length : Int)
  ready : ∀ tid ∈ s.taskIds,
    (tid ∈ queue ∨ tid ∈ result) ↔ (∀ d ∈ s.depsOf tid, d ∈ result)
  topo : TopoBuilt s result

/-- Invariant of the DFS in `validate_dependencies` for runs that report no
cycle: the black nodes (visited and off the recursion stack) have all their
dependency successors black, with strictly smaller finish rank. -/
def DfsInv (s : TaskScheduler) (visited recStack : List String) : Prop :=
  ∃ f : String → Nat, ∀ u v, u ∈ visited → u ∉ recStack → EdgeD s u v →
    (v ∈ visited ∧ v ∉ recStack ∧ f v < f u)

/-- Invariant preservation of a single cycle-free `has_cycle` call, stated
for a fixed fuel (the fuel induction goes through this statement). -/
def DfsAuxProp (s : TaskScheduler) (fuel : Nat) : Prop :=
  ∀ (n : String) (V S V' S' : List String),
    hasCycleFrom s fuel n V S = (false, V', S') → DfsInv s V S →
    V ⊆ V' ∧ n ∈ V' ∧ n ∉ S' ∧ S' = S ∧ DfsInv s V' S'

/-- The same property for the neighbour loop. -/
def DfsListProp (s : TaskScheduler) (fuel : Nat) : Prop :=
  ∀ (ns : List String) (V S V' S' : List String),
    hasCycleList s fuel ns V S = (false, V', S') → DfsInv s V S →
    V ⊆ V' ∧ S' = S ∧ DfsInv s V' S' ∧ ∀ m ∈ ns, m ∈ V' ∧ m ∉ S'

end TaskScheduler

/-! ### Concrete instances used for witnesses and counterexamples -/

/-- A concrete task value. -/
def baseTask (i : String) (deps : List String) (prio : TaskPriority)
    (st : TaskStatus) (retries maxr : Nat) : AgentTask :=
  { id := i, agent_role := AgentRole.engineer, task_type := "work",
    description := "example", priority := prio, status := st,
    dependencies := deps, context := [], created_at := 0,
    started_at := none, completed_at := none, result := none, error := none,
    retry_count := retries, max_retries := maxr }

/-- Tasks a ← b ← c (acyclic, resolved). -/
def chainSched : TaskScheduler :=
  ⟨[baseTask "a" [] TaskPriority.normal TaskStatus.pending 0 3,
    baseTask "b" ["a"] TaskPriority.high TaskStatus.pending 0 3,
    baseTask "c" ["a", "b"] TaskPriority.low TaskStatus.pending 0 3]⟩

/-- Tasks d ↔ e (a dependency cycle). -/
def cycleSched : TaskScheduler :=
  ⟨[baseTask "d" ["e"] TaskPriority.normal TaskStatus.pending 0 3,
    baseTask "e" ["d"] TaskPriority.normal TaskStatus.pending 0 3]⟩

/-- Task b declares a dependency on the unregistered id zz. -/
def missingSched : TaskScheduler :=
  ⟨[baseTask "a" [] TaskPriority.normal TaskStatus.pending 0 3,
    baseTask "b" ["zz"] TaskPriority.normal TaskStatus.pending 0 3]⟩

/-- A Failed task f with retry budget 2 and no retries consumed yet. -/
def failedSched : TaskScheduler :=
  ⟨[baseTask "f" [] TaskPriority.normal TaskStatus.failed 0 2]⟩

/-- Task x with an exhausted retry budget and a dependent task y. -/
def cascadeSched : TaskScheduler :=
  ⟨[baseTask "x" [] TaskPriority.normal TaskStatus.pending 0 0,
    baseTask "y" ["x"] TaskPriority.normal TaskStatus.pending 0 0]⟩

/-- A concrete idle agent. -/
def idleAgent : AgentInstance :=
  { id := "a1", role := AgentRole.engineer, state := AgentState.idle,
    current_task := none, completed_tasks := [], failed_tasks := [],
    created_at := 0, last_activity := 0, workspace_path := none,
    context := [], metrics := [] }

/-- A concrete agent currently executing the shared task object t1. -/
def busyAgent : AgentInstance :=
  { idleAgent with state := AgentState.executing, current_task := some "t1" }

/-- An idle agent plus a Pending shared task object t1. -/
def asmIdle : ASMState :=
  { tasks := [baseTask "t1" [] TaskPriority.normal TaskStatus.pending 0 3],
    agents := [idleAgent] }

/-- An agent currently executing the shared task object t1. -/
def asmBusy : ASMState :=
  { tasks := [baseTask "t1" [] TaskPriority.normal TaskStatus.pending 0 3],
    agents := [busyAgent] }

/-- A running session owning one Executing agent and one Pending task. -/
def orchRunning : OrchState :=
  { sessions := [{ id := "s1", status := "running", progress := 50, message := "going",
                   created_at := 0, updated_at := none,
                   agents := ["a1"], tasks := ["t1"] }],
    manager := { tasks := [],
                 agents := [{ id := "a1", role := AgentRole.engineer,
                              state := AgentState.executing, current_task := some "t1",
                              completed_tasks := [], failed_tasks := [],
                              created_at := 0, last_activity := 0,
                              workspace_path := none, context := [], metrics := [] }] },
    sched := ⟨[baseTask "t1" [] TaskPriority.normal TaskStatus.pending 0 3]⟩ }

/-! ## Theorems -/

/-- `find?` commutes with a map that does not change which elements match. -/
theorem find?_map_pres {α : Type} (q : α → Bool) (g : α → α)
    (hg : ∀ u, q (g u) = q u) (l : List α) :
    (l.map g).find? q = (l.find? q).map g := by
  rw [List.find?_map]
  have h : q ∘ g = q := funext hg
  rw [h]

namespace TaskScheduler

theorem findTask_updateTask (s : TaskScheduler) (tid tid' : String)
    (f : AgentTask → AgentTask) (hf : ∀ u, (f u).id = u.id) :
    (s.updateTask tid f).findTask tid' =
      (s.findTask tid').map (fun u => if u.id == tid then f u else u) := by
  show ((s.task_registry.map fun u => if u.id == tid then f u else u).find?
      fun t => t.id == tid') = _
  refine find?_map_pres _ _ (fun u => ?_) _
  by_cases h : (u.id == tid) = true <;> simp [h, hf]

theorem findTask_id (s : TaskScheduler) (tid : String) (t : AgentTask)
    (h : s.findTask tid = some t) : t.id = tid := by
  have h' : List.find? (fun u => u.id == tid) s.task_registry = some t := h
  have := List.find?_some h'
  simpa using this

theorem findTask_updateTask_self (s : TaskScheduler) (tid : String)
    (f : AgentTask → AgentTask) (hf : ∀ u, (f u).id = u.id)
    (t : AgentTask) (h : s.findTask tid = some t) :
    (s.updateTask tid f).findTask tid = some (f t) := by
  rw [findTask_updateTask s tid tid f hf, h]
  have hid : (t.id == tid) = true := by
    simpa using findTask_id s tid t h
  show some (if t.id == tid then f t else t) = some (f t)
  rw [if_pos hid]

theorem findTask_updateTask_ne (s : TaskScheduler) (tid tid' : String)
    (f : AgentTask → AgentTask) (hf : ∀ u, (f u).id = u.id)
    (hne : tid' ≠ tid) :
    (s.updateTask tid f).findTask tid' = s.findTask tid' := by
  rw [findTask_updateTask s tid tid' f hf]
  cases h : s.findTask tid' with
  | none => rfl
  | some t =>
    have hid' : t.id = tid' := findTask_id s tid' t h
    have hne' : (t.id == tid) = false := by
      rw [hid']
      simpa using hne
    show some (if t.id == tid then f t else t) = some t
    rw [if_neg (by simp [hne'])]

/-- C10.  For a registered Failed task with retry budget left, `retry_task`
sets the status to Pending, increments `retry_count` by one and clears
`error`, `started_at` and `completed_at`, while leaving every other field of
the task (including the stale `result`) unchanged. -/
theorem retry_task_frame (s : TaskScheduler) (tid : String) (t : AgentTask)
    (hfind : s.findTask tid = some t)
    (hst : t.status = TaskStatus.failed)
    (hrc : t.retry_count < t.max_retries) :
    ∃ s', s.retry_task tid = some s' ∧
      ∃ t', s'.findTask tid = some t' ∧
        t'.status = TaskStatus.pending ∧
        t'.retry_count = t.retry_count + 1 ∧
        t'.error = none ∧ t'.started_at = none ∧ t'.completed_at = none ∧
        t'.id = t.id ∧ t'.agent_role = t.agent_role ∧
        t'.task_type = t.task_type ∧ t'.description = t.description ∧
        t'.priority = t.priority ∧ t'.dependencies = t.dependencies ∧
        t'.context = t.context ∧ t'.result = t.result ∧
        t'.max_retries = t.max_retries ∧ t'.created_at = t.created_at := by
  have hcr : t.can_retry = true := by
    simp [AgentTask.can_retry, AgentTask.is_failed, hst, hrc]
  refine ⟨s.updateTask tid retryUpdate, ?_, retryUpdate t, ?_, ?_⟩
  · unfold retry_task
    rw [hfind]
    simp [hcr]
  · exact findTask_updateTask_self s tid retryUpdate (fun u => rfl) t hfind
  · simp [retryUpdate]

/-- Witness for C10 at the concrete scheduler `failedSched`. -/
theorem retry_task_frame_witness :
    ∃ s', failedSched.retry_task "f" = some s' ∧
      ∃ t', s'.findTask "f" = some t' ∧
        t'.status = TaskStatus.pending ∧
        t'.retry_count = (baseTask "f" [] TaskPriority.normal TaskStatus.failed 0 2).retry_count + 1 ∧
        t'.error = none ∧ t'.started_at = none ∧ t'.completed_at = none ∧
        t'.id = (baseTask "f" [] TaskPriority.normal TaskStatus.failed 0 2).id ∧
        t'.agent_role = (baseTask "f" [] TaskPriority.normal TaskStatus.failed 0 2).agent_role ∧
        t'.task_type = (baseTask "f" [] TaskPriority.normal TaskStatus.failed 0 2).task_type ∧
        t'.description = (baseTask "f" [] TaskPriority.normal TaskStatus.failed 0 2).description ∧
        t'.priority = (baseTask "f" [] TaskPriority.normal TaskStatus.failed 0 2).priority ∧
        t'.dependencies = (baseTask "f" [] TaskPriority.normal TaskStatus.failed 0 2).dependencies ∧
        t'.context = (baseTask "f" [] TaskPriority.normal TaskStatus.failed 0 2).context ∧
        t'.result = (baseTask "f" [] TaskPriority.normal TaskStatus.failed 0 2).result ∧
        t'.max_retries = (baseTask "f" [] TaskPriority.normal TaskStatus.failed 0 2).max_retries ∧
        t'.created_at = (baseTask "f" [] TaskPriority.normal TaskStatus.failed 0 2).created_at :=
  retry_task_frame failedSched "f"
    (baseTask "f" [] TaskPriority.normal TaskStatus.failed 0 2)
    (by decide) (by decide) (by decide)

end TaskScheduler

open TaskScheduler in
/-- Effect of one scheduler operation on the retry bookkeeping of the task
registered under `tid`: `mark_task_completed` and `mark_task_failed` never
change `retry_count` or `max_retries`, and a successful `retry_task tid`
increments `retry_count` by one and is guarded by `retry_count < max_retries`. -/
theorem applySchedOp_retry_count (op : SchedOp) (s s1 : TaskScheduler)
    (h : applySchedOp op s = some s1) (tid : String) (t : AgentTask)
    (hf : s.findTask tid = some t) :
    ∃ t', s1.findTask tid = some t' ∧ t'.max_retries = t.max_retries ∧
      (op = SchedOp.retryOp tid →
        t'.retry_count = t.retry_count + 1 ∧ t.retry_count < t.max_retries) ∧
      (op ≠ SchedOp.retryOp tid → t'.retry_count = t.retry_count) := by
  cases op with
  | completeOp tid' now =>
    cases hft : s.findTask tid' with
    | none => simp [applySchedOp, mark_task_completed, hft] at h
    | some u =>
      have hs1 : s1 = s.updateTask tid' (fun v =>
          { v with status := TaskStatus.completed, completed_at := some now }) := by
        simp [applySchedOp, mark_task_completed, hft] at h
        exact h.symm
      subst hs1
      by_cases he : tid = tid'
      · subst he
        refine ⟨_, findTask_updateTask_self s tid
          (fun v => { v with status := TaskStatus.completed, completed_at := some now })
          (fun v => rfl) t hf, rfl, ?_, fun _ => rfl⟩
        intro hop; cases hop
      · rw [findTask_updateTask_ne s tid' tid
          (fun v => { v with status := TaskStatus.completed, completed_at := some now })
          (fun v => rfl) he]
        refine ⟨t, hf, rfl, ?_, fun _ => rfl⟩
        intro hop; cases hop
  | failOp tid' err now =>
    cases hft : s.findTask tid' with
    | none => simp [applySchedOp, mark_task_failed, hft] at h
    | some u =>
      have hs1 : s1 = s.updateTask tid' (fun v =>
          { v with status := TaskStatus.failed, error := some err,
                   completed_at := some now }) := by
        simp [applySchedOp, mark_task_failed, hft] at h
        exact h.symm
      subst hs1
      by_cases he : tid = tid'
      · subst he
        refine ⟨_, findTask_updateTask_self s tid
          (fun v => { v with status := TaskStatus.failed, error := some err,
                             completed_at := some now })
          (fun v => rfl) t hf, rfl, ?_, fun _ => rfl⟩
        intro hop; cases hop
      · rw [findTask_updateTask_ne s tid' tid
          (fun v => { v with status := TaskStatus.failed, error := some err,
                             completed_at := some now })
          (fun v => rfl) he]
        refine ⟨t, hf, rfl, ?_, fun _ => rfl⟩
        intro hop; cases hop
  | retryOp tid' =>
    cases hft : s.findTask tid' with
    | none => simp [applySchedOp, retry_task, hft] at h
    | some u =>
      by_cases hcr : u.can_retry = true
      · have hs1 : s1 = s.updateTask tid' retryUpdate := by
          simp [applySchedOp, retry_task, hft, hcr] at h
          exact h.symm
        subst hs1
        by_cases he : tid = tid'
        · subst he
          have hut : u = t := by rw [hf] at hft; exact (Option.some.inj hft).symm
          subst hut
          have hlt : u.retry_count < u.max_retries := by
            have := hcr
            simp [AgentTask.can_retry, AgentTask.is_failed] at this
            exact this.2
          refine ⟨retryUpdate u,
            findTask_updateTask_self s tid retryUpdate (fun v => rfl) u hf, rfl,
            fun _ => ⟨rfl, hlt⟩, ?_⟩
          intro hop; exact absurd rfl hop
        · rw [findTask_updateTask_ne s tid' tid retryUpdate (fun v => rfl) he]
          refine ⟨t, hf, rfl, ?_, fun _ => rfl⟩
          intro hop
          cases hop
          exact absurd rfl he
      · simp [applySchedOp, retry_task, hft, hcr] at h

theorem countRetries_cons_self (tid : String) (ops : List SchedOp) :
    countRetries tid (SchedOp.retryOp tid :: ops) = countRetries tid ops + 1 := by
  simp [countRetries]

theorem countRetries_cons_ne (tid : String) (op : SchedOp) (ops : List SchedOp)
    (h : op ≠ SchedOp.retryOp tid) :
    countRetries tid (op :: ops) = countRetries tid ops := by
  cases op with
  | retryOp t =>
    have ht : (t == tid) = false := by
      by_cases he : t = tid
      · subst he; exact absurd rfl h
      · simpa using he
    simp [countRetries, ht]
  | completeOp t n => simp [countRetries]
  | failOp t e n => simp [countRetries]

open TaskScheduler in
/-- Trace invariant: along any successful run of scheduler operations the
tracked task's `max_retries` is constant and its `retry_count` grows by
exactly the number of successful retries, never exceeding `max_retries`. -/
theorem runSchedOps_retry_count (tid : String) :
    ∀ (ops : List SchedOp) (s s' : TaskScheduler) (t : AgentTask),
      runSchedOps ops s = some s' → s.findTask tid = some t →
      ∃ t', s'.findTask tid = some t' ∧
        t'.max_retries = t.max_retries ∧
        t'.retry_count = t.retry_count + countRetries tid ops ∧
        (1 ≤ countRetries tid ops →
          t.retry_count + countRetries tid ops ≤ t.max_retries) := by
  intro ops
  induction ops with
  | nil =>
    intro s s' t h hf
    have hss : s = s' := by simpa [runSchedOps] using h
    subst hss
    exact ⟨t, hf, rfl, by simp [countRetries], by simp [countRetries]⟩
  | cons op ops ih =>
    intro s s' t hrun hf
    cases happ : applySchedOp op s with
    | none => rw [runSchedOps, happ] at hrun; cases hrun
    | some s1 =>
      rw [runSchedOps, happ] at hrun
      obtain ⟨t1, hf1, hmax1, hretry1, hother1⟩ :=
        applySchedOp_retry_count op s s1 happ tid t hf
      obtain ⟨t', hf', hmax', hcount', hbound'⟩ := ih s1 s' t1 hrun hf1
      by_cases hop : op = SchedOp.retryOp tid
      · subst hop
        obtain ⟨hinc, hlt⟩ := hretry1 rfl
        rw [countRetries_cons_self]
        refine ⟨t', hf', by rw [hmax', hmax1], by omega, ?_⟩
        intro _
        by_cases hc : 1 ≤ countRetries tid ops
        · have := hbound' hc
          omega
        · have hc0 : countRetries tid ops = 0 := by omega
          omega
      · rw [countRetries_cons_ne tid op ops hop]
        have heq := hother1 hop
        refine ⟨t', hf', by rw [hmax', hmax1], by omega, ?_⟩
        intro hc
        have := hbound' hc
        omega

open TaskScheduler in
/-- C4.  A task that starts with `retry_count = 0` and `max_retries = N`
undergoes the Failed-to-Pending transition (`retry_task`) at most N times
along any successful trace of scheduler operations; each successful retry
increments `retry_count` by one; `retry_task` succeeds exactly when the task
is Failed with `retry_count < max_retries`; and once `retry_count` has
reached N, a further failure is terminal: `can_retry()` is false and
`retry_count` stays at N. -/
theorem retry_bound (s0 : TaskScheduler) (ops : List SchedOp) (tid : String)
    (t0 : AgentTask) (s1 : TaskScheduler)
    (hfind : s0.findTask tid = some t0) (hrc0 : t0.retry_count = 0)
    (hrun : runSchedOps ops s0 = some s1) :
    countRetries tid ops ≤ t0.max_retries ∧
    (∃ t1, s1.findTask tid = some t1 ∧
      t1.retry_count = countRetries tid ops ∧
      t1.max_retries = t0.max_retries ∧
      (t1.retry_count = t0.max_retries →
        ∀ err now s2, s1.mark_task_failed tid err now = some s2 →
          s2.can_retry_task tid = false ∧
          ∃ t2, s2.findTask tid = some t2 ∧
            t2.retry_count = t0.max_retries ∧
            t2.status = TaskStatus.failed)) ∧
    (∀ (s : TaskScheduler) (t : AgentTask), s.findTask tid = some t →
      ((s.retry_task tid).isSome ↔
        (t.status = TaskStatus.failed ∧ t.retry_count < t.max_retries))) := by
  obtain ⟨t1, hf1, hmax1, hcount1, hbound1⟩ :=
    runSchedOps_retry_count tid ops s0 s1 t0 hrun hfind
  refine ⟨?_, ⟨t1, hf1, by omega, hmax1, ?_⟩, ?_⟩
  · by_cases hc : 1 ≤ countRetries tid ops
    · have := hbound1 hc
      omega
    · omega
  · intro hterm err now s2 hmark
    have hs2 : s2 = s1.updateTask tid (fun v =>
        { v with status := TaskStatus.failed, error := some err,
                 completed_at := some now }) := by
      unfold mark_task_failed at hmark
      rw [hf1] at hmark
      simpa using hmark.symm
    subst hs2
    have hf2 := findTask_updateTask_self s1 tid
      (fun v => { v with status := TaskStatus.failed, error := some err,
                         completed_at := some now }) (fun v => rfl) t1 hf1
    refine ⟨?_, ⟨_, hf2, by simpa using by omega, rfl⟩⟩
    · unfold can_retry_task
      rw [hf2]
      simp [AgentTask.can_retry, AgentTask.is_failed]
      omega
  · intro s t hft
    unfold retry_task
    rw [hft]
    by_cases hcr : t.can_retry = true
    · simp only [hcr, if_true]
      constructor
      · intro _
        have := hcr
        simp [AgentTask.can_retry, AgentTask.is_failed] at this
        exact ⟨this.1, this.2⟩
      · intro _; rfl
    · have hcrf : t.can_retry = false := by
        cases hcv : t.can_retry
        · rfl
        · exact absurd hcv hcr
      simp only [hcrf]
      constructor
      · intro hsome; simp at hsome
      · intro hst
        exfalso
        apply hcr
        simp [AgentTask.can_retry, AgentTask.is_failed, hst.1, hst.2]

namespace TaskScheduler

theorem mem_insertByPriority (t x : AgentTask) (l : List AgentTask) :
    x ∈ insertByPriority t l ↔ x = t ∨ x ∈ l := by
  induction l with
  | nil => simp [insertByPriority]
  | cons u us ih =>
    by_cases h : priorityValue u.priority ≤ priorityValue t.priority
    · simp [insertByPriority, h]
    · rw [show insertByPriority t (u :: us) = u :: insertByPriority t us from by
        simp [insertByPriority, h]]
      simp only [List.mem_cons, ih]
      tauto

theorem mem_sortByPriorityDesc (l : List AgentTask) (x : AgentTask) :
    x ∈ sortByPriorityDesc l ↔ x ∈ l := by
  induction l with
  | nil => simp [sortByPriorityDesc]
  | cons t ts ih =>
    rw [show sortByPriorityDesc (t :: ts) = insertByPriority t (sortByPriorityDesc ts)
      from rfl]
    rw [mem_insertByPriority]
    simp [ih]

theorem pairwise_insertByPriority (t : AgentTask) (l : List AgentTask)
    (h : l.Pairwise (fun a b => priorityValue b.priority ≤ priorityValue a.priority)) :
    (insertByPriority t l).Pairwise
      (fun a b => priorityValue b.priority ≤ priorityValue a.priority) := by
  induction l with
  | nil => simp [insertByPriority]
  | cons u us ih =>
    rcases List.pairwise_cons.mp h with ⟨hu, hus⟩
    by_cases hc : priorityValue u.priority ≤ priorityValue t.priority
    · rw [show insertByPriority t (u :: us) = t :: u :: us from by
        simp [insertByPriority, hc]]
      refine List.pairwise_cons.mpr ⟨?_, h⟩
      intro x hx
      rcases List.mem_cons.mp hx with hxu | hxus
      · subst hxu; exact hc
      · exact le_trans (hu x hxus) hc
    · rw [show insertByPriority t (u :: us) = u :: insertByPriority t us from by
        simp [insertByPriority, hc]]
      refine List.pairwise_cons.mpr ⟨?_, ih hus⟩
      intro x hx
      rcases (mem_insertByPriority t x us).mp hx with hxt | hxus
      · subst hxt; omega
      · exact hu x hxus

theorem pairwise_sortByPriorityDesc (l : List AgentTask) :
    (sortByPriorityDesc l).Pairwise
      (fun a b => priorityValue b.priority ≤ priorityValue a.priority) := by
  induction l with
  | nil => simp [sortByPriorityDesc]
  | cons t ts ih => exact pairwise_insertByPriority t _ ih

theorem filter_insertByPriority (n : Nat) (t : AgentTask) (l : List AgentTask) :
    (insertByPriority t l).filter (fun u => priorityValue u.priority == n) =
      if (priorityValue t.priority == n) = true
      then t :: l.filter (fun u => priorityValue u.priority == n)
      else l.filter (fun u => priorityValue u.priority == n) := by
  induction l with
  | nil =>
    by_cases h : (priorityValue t.priority == n) = true <;>
      simp [insertByPriority, List.filter_cons, h]
  | cons u us ih =>
    by_cases hc : priorityValue u.priority ≤ priorityValue t.priority
    · rw [show insertByPriority t (u :: us) = t :: u :: us from by
        simp [insertByPriority, hc]]
      by_cases h : (priorityValue t.priority == n) = true <;>
        simp [List.filter_cons, h]
    · rw [show insertByPriority t (u :: us) = u :: insertByPriority t us from by
        simp [insertByPriority, hc]]
      by_cases hu : (priorityValue u.priority == n) = true
      · have hun : priorityValue u.priority = n := by simpa using hu
        have htn : priorityValue t.priority ≠ n := by omega
        have htn' : (priorityValue t.priority == n) = false := by simpa using htn
        simp only [List.filter_cons, hu, if_true, ih, htn', Bool.false_eq_true, if_false]
      · have hu' : (priorityValue u.priority == n) = false := by
          cases hv : (priorityValue u.priority == n)
          · rfl
          · exact absurd hv hu
        simp only [List.filter_cons, hu', Bool.false_eq_true, if_false, ih]

theorem filter_sortByPriorityDesc (n : Nat) (l : List AgentTask) :
    (sortByPriorityDesc l).filter (fun u => priorityValue u.priority == n) =
      l.filter (fun u => priorityValue u.priority == n) := by
  induction l with
  | nil => rfl
  | cons t ts ih =>
    rw [show sortByPriorityDesc (t :: ts) = insertByPriority t (sortByPriorityDesc ts)
      from rfl]
    rw [filter_insertByPriority, List.filter_cons]
    by_cases h : (priorityValue t.priority == n) = true <;> simp [h, ih]

/-- C3.  `get_ready_tasks completed` returns exactly the registered tasks that
are Pending with all dependencies in `completed`; the result is sorted by
priority descending (`_priority_value`: Critical 4 > High 3 > Normal 2 >
Low 1), and within each priority value it preserves the registry (creation /
FIFO) order — the stable-sort tie-break. -/
theorem ready_tasks_spec (s : TaskScheduler) (completed : List String) :
    (∀ t, t ∈ s.get_ready_tasks completed ↔
      (t ∈ s.task_registry ∧ t.status = TaskStatus.pending ∧
        ∀ d ∈ t.dependencies, d ∈ completed)) ∧
    (s.get_ready_tasks completed).Pairwise
      (fun a b => priorityValue b.priority ≤ priorityValue a.priority) ∧
    (∀ n : Nat, (s.get_ready_tasks completed).filter
        (fun u => priorityValue u.priority == n) =
      (s.task_registry.filter (fun t => t.status == TaskStatus.pending &&
          t.dependencies.all (fun d => completed.contains d))).filter
        (fun u => priorityValue u.priority == n)) := by
  unfold get_ready_tasks
  refine ⟨?_, pairwise_sortByPriorityDesc _, fun n => filter_sortByPriorityDesc n _⟩
  intro t
  rw [mem_sortByPriorityDesc, List.mem_filter]
  simp [List.all_eq_true]

/-- Witness for C3: in `chainSched` with nothing completed, task a (no
dependencies, Pending) is in the ready list. -/
theorem ready_tasks_spec_witness :
    baseTask "a" [] TaskPriority.normal TaskStatus.pending 0 3 ∈
      chainSched.get_ready_tasks [] :=
  ((ready_tasks_spec chainSched []).1
    (baseTask "a" [] TaskPriority.normal TaskStatus.pending 0 3)).mpr
    ⟨by decide, rfl, by decide⟩

end TaskScheduler

open TaskScheduler in
/-- Witness for C4: task f (`max_retries = 2`) failed three times with two
retries in between; the trace succeeds and performs exactly 2 ≤ 2 retries. -/
theorem retry_bound_witness :
    countRetries "f"
      [SchedOp.retryOp "f", SchedOp.failOp "f" "e1" 1,
       SchedOp.retryOp "f", SchedOp.failOp "f" "e2" 2] ≤
      (baseTask "f" [] TaskPriority.normal TaskStatus.failed 0 2).max_retries :=
  (retry_bound failedSched
    [SchedOp.retryOp "f", SchedOp.failOp "f" "e1" 1,
     SchedOp.retryOp "f", SchedOp.failOp "f" "e2" 2] "f"
    (baseTask "f" [] TaskPriority.normal TaskStatus.failed 0 2)
    ⟨[{ baseTask "f" [] TaskPriority.normal TaskStatus.failed 2 2 with
         error := some "e2", completed_at := some 2 }]⟩
    (by decide) (by decide) (by decide)).1

open TaskScheduler in
/-- C5 counterexample.  In `cascadeSched`, task x (retry budget 0) fails
terminally; its dependent y is not transitioned to Cancelled — it stays
Pending — and `mark_task_completed` subsequently marks y Completed, so a
transitive dependent of a terminally failed task reaches Completed. -/
theorem cascade_cancellation_counterexample :
    ((cascadeSched.mark_task_failed "x" "boom" 5).bind (fun s1 =>
      (s1.mark_task_completed "y" 6).map (fun p =>
        ((s1.findTask "x").map AgentTask.status,
         s1.can_retry_task "x",
         (s1.findTask "y").map AgentTask.status,
         (p.1.findTask "y").map AgentTask.status))))
    = some (some TaskStatus.failed, false, some TaskStatus.pending,
            some TaskStatus.completed) := by decide

open TaskScheduler in
/-- C5 amended.  When a task becomes (terminally) Failed, `mark_task_failed`
records the failure on that task alone — status Failed, `error` and
`completed_at` set, the retry bookkeeping untouched — and leaves every other
registered task, in particular every transitive dependent, completely
unchanged: no dependent is transitioned to Cancelled, and a dependent can
still be marked Completed afterwards. -/
theorem mark_task_failed_frame (s : TaskScheduler) (tid err : String) (now : Nat)
    (t : AgentTask) (hfind : s.findTask tid = some t) :
    ∃ s', s.mark_task_failed tid err now = some s' ∧
      (∃ t', s'.findTask tid = some t' ∧ t'.status = TaskStatus.failed ∧
        t'.error = some err ∧ t'.completed_at = some now ∧
        t'.retry_count = t.retry_count ∧ t'.max_retries = t.max_retries ∧
        t'.dependencies = t.dependencies) ∧
      (∀ tid', tid' ≠ tid → s'.findTask tid' = s.findTask tid') := by
  refine ⟨s.updateTask tid (fun v =>
      { v with status := TaskStatus.failed, error := some err,
               completed_at := some now }), ?_, ?_, ?_⟩
  · unfold mark_task_failed
    rw [hfind]
  · exact ⟨_, findTask_updateTask_self s tid
      (fun v => { v with status := TaskStatus.failed, error := some err,
                         completed_at := some now }) (fun v => rfl) t hfind,
      rfl, rfl, rfl, rfl, rfl, rfl⟩
  · intro tid' hne
    exact findTask_updateTask_ne s tid tid'
      (fun v => { v with status := TaskStatus.failed, error := some err,
                         completed_at := some now }) (fun v => rfl) hne

open TaskScheduler in
/-- Witness for the amended C5 at `cascadeSched`: failing x leaves its
dependent y exactly as it was. -/
theorem mark_task_failed_frame_witness :
    ∃ s', cascadeSched.mark_task_failed "x" "boom" 5 = some s' ∧
      (∃ t', s'.findTask "x" = some t' ∧ t'.status = TaskStatus.failed ∧
        t'.error = some "boom" ∧ t'.completed_at = some 5 ∧
        t'.retry_count = (baseTask "x" [] TaskPriority.normal TaskStatus.pending 0 0).retry_count ∧
        t'.max_retries = (baseTask "x" [] TaskPriority.normal TaskStatus.pending 0 0).max_retries ∧
        t'.dependencies = (baseTask "x" [] TaskPriority.normal TaskStatus.pending 0 0).dependencies) ∧
      (∀ tid', tid' ≠ "x" → s'.findTask tid' = cascadeSched.findTask tid') :=
  mark_task_failed_frame cascadeSched "x" "boom" 5
    (baseTask "x" [] TaskPriority.normal TaskStatus.pending 0 0) (by decide)

namespace ASMState

theorem getAgent_updateAgent (st : ASMState) (aid aid' : String)
    (f : AgentInstance → AgentInstance) (hf : ∀ a, (f a).id = a.id) :
    (st.updateAgent aid f).getAgent aid' =
      (st.getAgent aid').map (fun a => if a.id == aid then f a else a) := by
  show ((st.agents.map fun a => if a.id == aid then f a else a).find?
      fun a => a.id == aid') = _
  refine find?_map_pres _ _ (fun a => ?_) _
  by_cases h : (a.id == aid) = true <;> simp [h, hf]

theorem getAgent_id (st : ASMState) (aid : String) (a : AgentInstance)
    (h : st.getAgent aid = some a) : a.id = aid := by
  have h' : List.find? (fun b => b.id == aid) st.agents = some a := h
  have := List.find?_some h'
  simpa using this

theorem getAgent_updateAgent_self (st : ASMState) (aid : String)
    (f : AgentInstance → AgentInstance) (hf : ∀ a, (f a).id = a.id)
    (a : AgentInstance) (h : st.getAgent aid = some a) :
    (st.updateAgent aid f).getAgent aid = some (f a) := by
  rw [getAgent_updateAgent st aid aid f hf, h]
  have hid : (a.id == aid) = true := by simpa using getAgent_id st aid a h
  show some (if a.id == aid then f a else a) = some (f a)
  rw [if_pos hid]

theorem getAgent_updateAgent_ne (st : ASMState) (aid aid' : String)
    (f : AgentInstance → AgentInstance) (hf : ∀ a, (f a).id = a.id)
    (hne : aid' ≠ aid) :
    (st.updateAgent aid f).getAgent aid' = st.getAgent aid' := by
  rw [getAgent_updateAgent st aid aid' f hf]
  cases h : st.getAgent aid' with
  | none => rfl
  | some a =>
    have hid' : a.id = aid' := getAgent_id st aid' a h
    show some (if a.id == aid then f a else a) = some a
    rw [if_neg (by rw [hid']; simpa using hne)]

theorem getTask_updateTaskObj (st : ASMState) (tid tid' : String)
    (f : AgentTask → AgentTask) (hf : ∀ u, (f u).id = u.id) :
    (st.updateTaskObj tid f).getTask tid' =
      (st.getTask tid').map (fun u => if u.id == tid then f u else u) := by
  show ((st.tasks.map fun u => if u.id == tid then f u else u).find?
      fun u => u.id == tid') = _
  refine find?_map_pres _ _ (fun u => ?_) _
  by_cases h : (u.id == tid) = true <;> simp [h, hf]

theorem getAgent_updateTaskObj (st : ASMState) (tid : String)
    (f : AgentTask → AgentTask) (aid : String) :
    (st.updateTaskObj tid f).getAgent aid = st.getAgent aid := rfl

theorem getTask_updateAgent (st : ASMState) (aid : String)
    (f : AgentInstance → AgentInstance) (tid : String) :
    (st.updateAgent aid f).getTask tid = st.getTask tid := rfl

/-- C6 counterexample.  Assigning the Pending task t1 to the idle agent a1
succeeds and sets the agent Executing with `current_task` t1, but the shared
task object keeps status Pending — not Running — and `started_at` stays
`None`, contrary to the claim. -/
theorem assign_task_counterexample :
    ((asmIdle.assign_task "a1" "t1" 7).map (fun st =>
      ((st.getAgent "a1").map (fun a => (a.state, a.current_task)),
       (st.getTask "t1").map (fun t => (t.status, t.started_at)))))
    = some (some (AgentState.executing, some "t1"),
            some (TaskStatus.pending, (none : Option Nat))) := by decide

/-- C6 amended.  `assign_task` raises whenever the agent is unknown or not
Available (Idle/Completed), changing nothing; on success it sets the agent's
`current_task` to the task, the agent state to Executing and touches
`last_activity`, while the task object itself is left unmodified — its status
is not set to Running and `started_at` is not stamped. -/
theorem assign_task_spec (st : ASMState) (aid tid : String) (now : Nat) :
    (st.getAgent aid = none → st.assign_task aid tid now = none) ∧
    (∀ a, st.getAgent aid = some a → a.is_available = false →
      st.assign_task aid tid now = none) ∧
    (∀ a, st.getAgent aid = some a → a.is_available = true →
      ∃ st', st.assign_task aid tid now = some st' ∧
        st'.tasks = st.tasks ∧
        st'.getAgent aid = some
          { a with current_task := some tid, state := AgentState.executing,
                   last_activity := now } ∧
        (∀ aid', aid' ≠ aid → st'.getAgent aid' = st.getAgent aid')) := by
  refine ⟨?_, ?_, ?_⟩
  · intro h
    unfold assign_task
    rw [h]
  · intro a ha hav
    unfold assign_task
    rw [ha]
    simp [hav]
  · intro a ha hav
    refine ⟨st.updateAgent aid (fun b =>
      { b with current_task := some tid, state := AgentState.executing,
               last_activity := now }), ?_, rfl, ?_, ?_⟩
    · unfold assign_task
      rw [ha]
      simp [hav]
    · exact getAgent_updateAgent_self st aid
        (fun b => { b with current_task := some tid, state := AgentState.executing,
                           last_activity := now }) (fun b => rfl) a ha
    · intro aid' hne
      exact getAgent_updateAgent_ne st aid aid'
        (fun b => { b with current_task := some tid, state := AgentState.executing,
                           last_activity := now }) (fun b => rfl) hne

/-- Witness for the amended C6 at `asmIdle`. -/
theorem assign_task_spec_witness :
    ∃ st', asmIdle.assign_task "a1" "t1" 7 = some st' ∧
      st'.tasks = asmIdle.tasks ∧
      st'.getAgent "a1" = some
        { idleAgent with
          current_task := some "t1"
          state := AgentState.executing
          last_activity := 7 } ∧
      (∀ aid', aid' ≠ "a1" → st'.getAgent aid' = asmIdle.getAgent aid') :=
  (assign_task_spec asmIdle "a1" "t1" 7).2.2 idleAgent (by decide) (by decide)

/-- C7 counterexample.  Completing agent a1's current task t1 records the
result on the shared task object and moves the agent to Completed, but the
task's status stays Pending — it is not set to Completed, contrary to the
claim (symmetrically, `fail_task` does not set it to Failed). -/
theorem complete_task_counterexample :
    ((asmBusy.complete_task "a1" (some "out") 9).map (fun st =>
      ((st.getAgent "a1").map (fun a => (a.state, a.current_task, a.completed_tasks)),
       (st.getTask "t1").map (fun t => (t.status, t.result)))),
     (asmBusy.fail_task "a1" "bad" 9).map (fun st =>
      ((st.getAgent "a1").map (fun a => (a.state, a.current_task, a.failed_tasks)),
       (st.getTask "t1").map (fun t => (t.status, t.error)))))
    = (some (some (AgentState.completed, none, ["t1"]),
             some (TaskStatus.pending, some "out")),
       some (some (AgentState.failed, none, ["t1"]),
             some (TaskStatus.pending, some "bad"))) := by rfl

/-- C7 amended.  `complete_task` / `fail_task` raise whenever the agent is
unknown or has no `current_task`; on success they set the agent state to
Completed resp. Failed, clear `current_task`, append the task id to
`completed_tasks` resp. `failed_tasks`, touch `last_activity`, and store the
result resp. error on the shared task object — whose `status` field they do
not change (in particular it is not set to Completed resp. Failed). -/
theorem complete_fail_task_spec (st : ASMState) (aid : String)
    (res : Option String) (err : String) (now : Nat) :
    (st.getAgent aid = none →
      st.complete_task aid res now = none ∧ st.fail_task aid err now = none) ∧
    (∀ a, st.getAgent aid = some a → a.current_task = none →
      st.complete_task aid res now = none ∧ st.fail_task aid err now = none) ∧
    (∀ a tid, st.getAgent aid = some a → a.current_task = some tid →
      (∃ st', st.complete_task aid res now = some st' ∧
        st'.getAgent aid = some
          { a with completed_tasks := a.completed_tasks ++ [tid],
                   current_task := none, state := AgentState.completed,
                   last_activity := now } ∧
        st'.getTask tid = (st.getTask tid).map (fun t => { t with result := res }) ∧
        (∀ t, st.getTask tid = some t →
          ∃ t', st'.getTask tid = some t' ∧ t'.status = t.status)) ∧
      (∃ st', st.fail_task aid err now = some st' ∧
        st'.getAgent aid = some
          { a with failed_tasks := a.failed_tasks ++ [tid],
                   current_task := none, state := AgentState.failed,
                   last_activity := now } ∧
        st'.getTask tid = (st.getTask tid).map (fun t => { t with error := some err }) ∧
        (∀ t, st.getTask tid = some t →
          ∃ t', st'.getTask tid = some t' ∧ t'.status = t.status))) := by
  refine ⟨?_, ?_, ?_⟩
  · intro h
    constructor <;> (first | (unfold complete_task; rw [h]) | (unfold fail_task; rw [h]))
  · intro a ha hct
    constructor
    · unfold complete_task
      rw [ha]
      simp [hct]
    · unfold fail_task
      rw [ha]
      simp [hct]
  · intro a tid ha hct
    constructor
    · refine ⟨(st.updateTaskObj tid (fun t => { t with result := res })).updateAgent aid
        (fun b =>
          { b with
            completed_tasks := b.completed_tasks ++ [tid]
            current_task := none
            state := AgentState.completed
            last_activity := now }), ?_, ?_, ?_, ?_⟩
      · unfold complete_task
        rw [ha]
        simp [hct]
      · rw [getAgent_updateAgent_self _ aid
          (fun b => { b with completed_tasks := b.completed_tasks ++ [tid],
                             current_task := none, state := AgentState.completed,
                             last_activity := now }) (fun b => rfl) a
          ((getAgent_updateTaskObj st tid (fun t => { t with result := res }) aid).trans ha)]
      · rw [getTask_updateAgent, getTask_updateTaskObj st tid tid
          (fun t => { t with result := res }) (fun t => rfl)]
        cases h : st.getTask tid with
        | none => rfl
        | some t =>
          have hid : (t.id == tid) = true := by
            have h' : List.find? (fun u => u.id == tid) st.tasks = some t := h
            simpa using List.find?_some h'
          simp [hid]
          intro hc
          exact absurd (by simpa using hid) hc
      · intro t h
        have hid : (t.id == tid) = true := by
          have h' : List.find? (fun u => u.id == tid) st.tasks = some t := h
          simpa using List.find?_some h'
        rw [getTask_updateAgent, getTask_updateTaskObj st tid tid
          (fun u => { u with result := res }) (fun u => rfl), h]
        exact ⟨_, rfl, by simp [hid]⟩
    · refine ⟨(st.updateTaskObj tid (fun t => { t with error := some err })).updateAgent aid
        (fun b =>
          { b with
            failed_tasks := b.failed_tasks ++ [tid]
            current_task := none
            state := AgentState.failed
            last_activity := now }), ?_, ?_, ?_, ?_⟩
      · unfold fail_task
        rw [ha]
        simp [hct]
      · rw [getAgent_updateAgent_self _ aid
          (fun b => { b with failed_tasks := b.failed_tasks ++ [tid],
                             current_task := none, state := AgentState.failed,
                             last_activity := now }) (fun b => rfl) a
          ((getAgent_updateTaskObj st tid (fun t => { t with error := some err }) aid).trans ha)]
      · rw [getTask_updateAgent, getTask_updateTaskObj st tid tid
          (fun t => { t with error := some err }) (fun t => rfl)]
        cases h : st.getTask tid with
        | none => rfl
        | some t =>
          have hid : (t.id == tid) = true := by
            have h' : List.find? (fun u => u.id == tid) st.tasks = some t := h
            simpa using List.find?_some h'
          simp [hid]
          intro hc
          exact absurd (by simpa using hid) hc
      · intro t h
        have hid : (t.id == tid) = true := by
          have h' : List.find? (fun u => u.id == tid) st.tasks = some t := h
          simpa using List.find?_some h'
        rw [getTask_updateAgent, getTask_updateTaskObj st tid tid
          (fun u => { u with error := some err }) (fun u => rfl), h]
        exact ⟨_, rfl, by simp [hid]⟩

/-- Witness for the amended C7 at `asmBusy`: projects the complete_task
branch. -/
theorem complete_fail_task_spec_witness :
    ∃ st', asmBusy.complete_task "a1" (some "out") 9 = some st' ∧
      st'.getAgent "a1" = some
        { busyAgent with
          completed_tasks := ["t1"]
          current_task := none
          state := AgentState.completed
          last_activity := 9 } ∧
      st'.getTask "t1" = (asmBusy.getTask "t1").map
        (fun t => { t with result := some "out" }) ∧
      (∀ t, asmBusy.getTask "t1" = some t →
        ∃ t', st'.getTask "t1" = some t' ∧ t'.status = t.status) :=
  ((complete_fail_task_spec asmBusy "a1" (some "out") "bad" 9).2.2
    busyAgent "t1" (by decide) (by decide)).1

end ASMState

open TaskScheduler in
/-- C8 counterexample.  Cancelling the running session s1 succeeds: the
session becomes "cancelled" and its Executing agent a1 is Terminated — but
the session's Pending task t1 is left Pending in the scheduler, not marked
Cancelled, contrary to the claim. -/
theorem cancel_session_counterexample :
    ((orchRunning.cancel_session "s1" 11).1,
     ((orchRunning.cancel_session "s1" 11).2.sessions.find? (fun s => s.id == "s1")).map
       (fun s => s.status),
     ((orchRunning.cancel_session "s1" 11).2.manager.agents.find?
       (fun a => a.id == "a1")).map (fun a => a.state),
     ((orchRunning.cancel_session "s1" 11).2.sched.findTask "t1").map AgentTask.status)
    = (true, some "cancelled", some AgentState.terminated, some TaskStatus.pending) := by
  rfl

theorem find?_session_id (l : List OrchSession) (sid : String) (s : OrchSession)
    (h : l.find? (fun u => u.id == sid) = some s) : s.id = sid := by
  have := List.find?_some h
  simpa using this

/-- C8 amended.  `cancel_session` returns `False` and changes nothing for an
unknown or already terminal session; for a non-terminal session it returns
`True`, sets the session status to "cancelled" with progress 0, transitions
every session agent currently Executing or Thinking to Terminated (leaving
all other agents unchanged), and does not touch the task scheduler — the
session's Pending tasks stay Pending rather than being marked Cancelled. -/
theorem cancel_session_spec (st : OrchState) (sid : String) (now : Nat) :
    (st.sessions.find? (fun u => u.id == sid) = none →
      st.cancel_session sid now = (false, st)) ∧
    (∀ s, st.sessions.find? (fun u => u.id == sid) = some s →
      s.status ∈ terminalStatuses →
      st.cancel_session sid now = (false, st)) ∧
    (∀ s, st.sessions.find? (fun u => u.id == sid) = some s →
      s.status ∉ terminalStatuses →
      ∃ st', st.cancel_session sid now = (true, st') ∧
        (∃ s', st'.sessions.find? (fun u => u.id == sid) = some s' ∧
          s'.status = "cancelled" ∧ s'.progress = 0 ∧
          s'.message = "Session cancelled by user" ∧ s'.updated_at = some now) ∧
        (∀ a ∈ st.manager.agents, a.id ∈ s.agents →
          (a.state = AgentState.executing ∨ a.state = AgentState.thinking) →
          ({ a with state := AgentState.terminated, last_activity := now }) ∈
            st'.manager.agents) ∧
        (∀ a ∈ st.manager.agents,
          a.id ∉ s.agents ∨
            (a.state ≠ AgentState.executing ∧ a.state ≠ AgentState.thinking) →
          a ∈ st'.manager.agents) ∧
        st'.sched = st.sched) := by
  refine ⟨?_, ?_, ?_⟩
  · intro h
    unfold OrchState.cancel_session
    rw [h]
  · intro s hs hterm
    have hc : terminalStatuses.contains s.status = true :=
      List.elem_eq_true_of_mem hterm
    unfold OrchState.cancel_session
    rw [hs]
    simp only [hc, if_true]
  · intro s hs hterm
    have hc : terminalStatuses.contains s.status = false := by
      cases hv : terminalStatuses.contains s.status
      · rfl
      · exact absurd (List.mem_of_elem_eq_true hv) hterm
    have hsid : s.id = sid := find?_session_id st.sessions sid s hs
    refine ⟨{ st with
        sessions := st.sessions.map (fun u => if u.id == sid then
          OrchSession.update_progress { s with status := "cancelled" }
            0 "Session cancelled by user" now else u)
        manager := { st.manager with
          agents := st.manager.agents.map (fun a =>
            if s.agents.contains a.id && (a.state == AgentState.executing
                || a.state == AgentState.thinking)
            then { a with state := AgentState.terminated, last_activity := now }
            else a) } }, ?_, ?_, ?_, ?_, rfl⟩
    · unfold OrchState.cancel_session
      rw [hs]
      simp only [hc, Bool.false_eq_true, if_false]
    · refine ⟨OrchSession.update_progress { s with status := "cancelled" }
        0 "Session cancelled by user" now, ?_, rfl, rfl, rfl, rfl⟩
      have hpres : ∀ u : OrchSession,
          ((if u.id == sid then OrchSession.update_progress
            { s with status := "cancelled" } 0 "Session cancelled by user" now
            else u).id == sid) = (u.id == sid) := by
        intro u
        by_cases h : (u.id == sid) = true
        · rw [if_pos h]
          show (s.id == sid) = (u.id == sid)
          rw [h]
          simp [hsid]
        · rw [if_neg (by simpa using (by simpa using h : ¬ u.id = sid))]
      show (st.sessions.map _).find? (fun u : OrchSession => u.id == sid) = _
      rw [find?_map_pres (fun u : OrchSession => u.id == sid) _ hpres st.sessions, hs]
      show some (if s.id == sid then _ else s) = _
      rw [if_pos (by simpa using hsid)]
    · intro a ha hmem hstate
      have hpos : a.id ∈ s.agents ∧ (a.state = AgentState.executing
          ∨ a.state = AgentState.thinking) := ⟨hmem, hstate⟩
      have := List.mem_map_of_mem (fun a : AgentInstance =>
        if s.agents.contains a.id && (a.state == AgentState.executing
            || a.state == AgentState.thinking)
        then { a with state := AgentState.terminated, last_activity := now }
        else a) ha
      simpa [hpos] using this
    · intro a ha hcond
      have hneg : ¬(a.id ∈ s.agents ∧ (a.state = AgentState.executing
          ∨ a.state = AgentState.thinking)) := by
        rcases hcond with h | ⟨h1, h2⟩
        · exact fun hc => h hc.1
        · rintro ⟨-, h | h⟩
          · exact h1 h
          · exact h2 h
      have := List.mem_map_of_mem (fun a : AgentInstance =>
        if s.agents.contains a.id && (a.state == AgentState.executing
            || a.state == AgentState.thinking)
        then { a with state := AgentState.terminated, last_activity := now }
        else a) ha
      simpa [hneg] using this

namespace TaskScheduler

theorem findTask_mem (s : TaskScheduler) (tid : String) (t : AgentTask)
    (h : s.findTask tid = some t) : t ∈ s.task_registry :=
  List.mem_of_find?_eq_some h

theorem mem_taskIds_iff (s : TaskScheduler) (tid : String) :
    tid ∈ s.taskIds ↔ ∃ t ∈ s.task_registry, t.id = tid := by
  unfold taskIds
  simp [List.mem_map]

theorem find?_id_of_mem {l : List AgentTask} (hwf : (l.map (fun v => v.id)).Nodup)
    {t : AgentTask} (ht : t ∈ l) :
    l.find? (fun u => u.id == t.id) = some t := by
  induction l with
  | nil => cases ht
  | cons u us ih =>
    rw [List.map_cons, List.nodup_cons] at hwf
    rcases List.mem_cons.mp ht with hu | hus
    · subst hu
      rw [List.find?_cons_of_pos _ (by simp)]
    · have hne' : (u.id == t.id) = false := by
        cases hv : (u.id == t.id)
        · rfl
        · exact absurd (show u.id = t.id by simpa using hv)
            (fun he => hwf.1 (he ▸ List.mem_map_of_mem _ hus))
      rw [List.find?_cons, hne']
      exact ih hwf.2 hus

theorem findTask_of_mem (s : TaskScheduler) (hwf : WellFormed s)
    (t : AgentTask) (ht : t ∈ s.task_registry) : s.findTask t.id = some t :=
  find?_id_of_mem hwf ht

theorem findTask_isSome_of_mem (s : TaskScheduler) (tid : String)
    (h : tid ∈ s.taskIds) : ∃ t, s.findTask tid = some t ∧ t.id = tid := by
  rcases (mem_taskIds_iff s tid).mp h with ⟨t, ht, hid⟩
  cases hf : s.findTask tid with
  | none =>
    have : ∀ x ∈ s.task_registry, ¬((fun u => u.id == tid) x = true) :=
      List.find?_eq_none.mp hf
    exact absurd (by simpa using hid) (by simpa using this t ht)
  | some u => exact ⟨u, rfl, findTask_id s tid u hf⟩

theorem depsOf_eq_of_mem (s : TaskScheduler) (hwf : WellFormed s)
    (t : AgentTask) (ht : t ∈ s.task_registry) :
    s.depsOf t.id = t.dependencies.dedup := by
  unfold depsOf
  rw [findTask_of_mem s hwf t ht]

theorem depsOf_of_not_mem (s : TaskScheduler) (tid : String)
    (h : tid ∉ s.taskIds) : s.depsOf tid = [] := by
  unfold depsOf
  cases hf : s.findTask tid with
  | none => rfl
  | some t =>
    exact absurd ((mem_taskIds_iff s tid).mpr
      ⟨t, findTask_mem s tid t hf, findTask_id s tid t hf⟩) h

theorem mem_taskIds_of_edge (s : TaskScheduler) {u v : String}
    (h : EdgeD s u v) : u ∈ s.taskIds := by
  by_contra hc
  rw [EdgeD, depsOf_of_not_mem s u hc] at h
  cases h

/-- Characterisation of the reverse dependency map. -/
theorem mem_revDepsOf (s : TaskScheduler) (hwf : WellFormed s) (c d : String) :
    d ∈ s.revDepsOf c ↔ (d ∈ s.taskIds ∧ c ∈ s.depsOf d) := by
  unfold revDepsOf
  constructor
  · intro h
    rcases List.mem_map.mp h with ⟨t, htf, hid⟩
    rcases List.mem_filter.mp htf with ⟨htr, hcd⟩
    have hdeps : c ∈ t.dependencies := by simpa using hcd
    subst hid
    refine ⟨(mem_taskIds_iff s t.id).mpr ⟨t, htr, rfl⟩, ?_⟩
    rw [depsOf_eq_of_mem s hwf t htr]
    simpa [List.mem_dedup] using hdeps
  · rintro ⟨hd, hc⟩
    rcases (mem_taskIds_iff s d).mp hd with ⟨t, htr, hid⟩
    subst hid
    rw [depsOf_eq_of_mem s hwf t htr, List.mem_dedup] at hc
    exact List.mem_map_of_mem _ (List.mem_filter.mpr ⟨htr, by simpa using hc⟩)

theorem revDepsOf_nodup (s : TaskScheduler) (hwf : WellFormed s) (c : String) :
    (s.revDepsOf c).Nodup := by
  unfold revDepsOf
  have hsub : List.Sublist
      ((s.task_registry.filter (fun t => t.dependencies.contains c)).map (fun t => t.id))
      (s.task_registry.map (fun t => t.id)) :=
    (List.filter_sublist _).map _
  exact List.Nodup.sublist hsub hwf

theorem nodup_depsOf (s : TaskScheduler) (tid : String) : (s.depsOf tid).Nodup := by
  unfold depsOf
  cases s.findTask tid with
  | none => exact List.nodup_nil
  | some t => exact t.dependencies.nodup_dedup

/-- Stable queue sorting permutes the queue. -/
theorem insertIdByPrio_perm (s : TaskScheduler) (tid : String) (l : List String) :
    (insertIdByPrio s tid l).Perm (tid :: l) := by
  induction l with
  | nil => simp [insertIdByPrio]
  | cons u us ih =>
    by_cases h : prioOf s u ≤ prioOf s tid
    · simp [insertIdByPrio, h]
    · rw [show insertIdByPrio s tid (u :: us) = u :: insertIdByPrio s tid us from by
        simp [insertIdByPrio, h]]
      exact (ih.cons u).trans (List.Perm.swap tid u us)

theorem sortIdsByPrioDesc_perm (s : TaskScheduler) (l : List String) :
    (sortIdsByPrioDesc s l).Perm l := by
  induction l with
  | nil => simp [sortIdsByPrioDesc]
  | cons t ts ih =>
    rw [show sortIdsByPrioDesc s (t :: ts) = insertIdByPrio s t (sortIdsByPrioDesc s ts)
      from rfl]
    exact (insertIdByPrio_perm s t _).trans (ih.cons t)

/-- `in_degree` lookups after a decrement. -/
theorem degGet_degDec_ne (m : List (String × Int)) (k k' : String) (hne : k' ≠ k) :
    degGet (degDec m k) k' = degGet m k' := by
  unfold degGet degDec
  rw [find?_map_pres (fun p => p.1 == k') (fun p => if p.1 == k then (p.1, p.2 - 1) else p)
    (fun p => by by_cases h : (p.1 == k) = true <;> simp [h]) m]
  cases h : m.find? (fun p => p.1 == k') with
  | none => rfl
  | some p =>
    have h' : List.find? (fun q : String × Int => q.1 == k') m = some p := h
    have hid : p.1 = k' := by simpa using List.find?_some h'
    show (if p.1 == k then (p.1, p.2 - 1) else p).2 = p.2
    rw [if_neg (by rw [hid]; simpa using hne)]

theorem degGet_degDec_self (m : List (String × Int)) (k : String)
    (h : (m.find? (fun p => p.1 == k)).isSome = true) :
    degGet (degDec m k) k = degGet m k - 1 := by
  unfold degGet degDec
  rw [find?_map_pres (fun p => p.1 == k) (fun p => if p.1 == k then (p.1, p.2 - 1) else p)
    (fun p => by by_cases hb : (p.1 == k) = true <;> simp [hb]) m]
  cases hf : m.find? (fun p => p.1 == k) with
  | none => rw [hf] at h; cases h
  | some p =>
    have h' : List.find? (fun q : String × Int => q.1 == k) m = some p := hf
    have hid : (p.1 == k) = true := by
      have h2 := List.find?_some h'
      simpa using h2
    show (if p.1 == k then (p.1, p.2 - 1) else p).2 = p.2 - 1
    rw [if_pos hid]

theorem filter_drop_completed (res : List String) (c : String) :
    ∀ (l : List String), l.Nodup → c ∈ l → c ∉ res →
      (l.filter (fun x => !((res ++ [c]).contains x))).length + 1 =
        (l.filter (fun x => !(res.contains x))).length := by
  intro l
  induction l with
  | nil => intro _ hc; cases hc
  | cons x xs ih =>
    intro hnd hc hcr
    rw [List.nodup_cons] at hnd
    rcases List.mem_cons.mp hc with he | hcs
    · subst he
      rw [List.filter_cons, List.filter_cons]
      have h1 : ¬((!((res ++ [c]).contains c)) = true) := by simp
      have h2 : (!(res.contains c)) = true := by simp [hcr]
      have heq : xs.filter (fun y => !((res ++ [c]).contains y)) =
          xs.filter (fun y => !(res.contains y)) := by
        apply List.filter_congr
        intro y hy
        have hyne : y ≠ c := fun he2 => hnd.1 (he2 ▸ hy)
        simp [List.mem_append, hyne]
      rw [if_neg h1, if_pos h2, heq, List.length_cons]
    · rw [List.filter_cons, List.filter_cons]
      by_cases hx : x ∈ res
      · have h1 : ¬((!((res ++ [c]).contains x)) = true) := by
          simp [List.mem_append, hx]
        have h2 : ¬((!(res.contains x)) = true) := by simp [hx]
        rw [if_neg h1, if_neg h2]
        exact ih hnd.2 hcs hcr
      · have hxc : x ≠ c := fun he2 => hnd.1 (he2 ▸ hcs)
        have h1 : (!((res ++ [c]).contains x)) = true := by
          simp [List.mem_append, hx, hxc]
        have h2 : (!(res.contains x)) = true := by simp [hx]
        rw [if_pos h1, if_pos h2]
        have := ih hnd.2 hcs hcr
        simp only [List.length_cons]
        omega

theorem filter_not_contains_congr (l res : List String) (c : String) (hc : c ∉ l) :
    l.filter (fun x => !((res ++ [c]).contains x)) =
      l.filter (fun x => !(res.contains x)) := by
  apply List.filter_congr
  intro y hy
  have hyne : y ≠ c := fun he => hc (he ▸ hy)
  simp [List.mem_append, hyne]

theorem mem_append_single_iff (res : List String) (c x : String) :
    x ∈ res ++ [c] ↔ (x ∈ res ∨ x = c) := by
  simp [List.mem_append]

theorem degDec_keys (m : List (String × Int)) (k tid : String)
    (h : (m.find? (fun p => p.1 == tid)).isSome = true) :
    ((degDec m k).find? (fun p => p.1 == tid)).isSome = true := by
  unfold degDec
  rw [find?_map_pres (fun p => p.1 == tid) (fun p => if p.1 == k then (p.1, p.2 - 1) else p)
    (fun p => by by_cases hb : (p.1 == k) = true <;> simp [hb]) m]
  cases hf : m.find? (fun p => p.1 == tid) with
  | none => rw [hf] at h; cases h
  | some p => rfl

/-- Behaviour of the dependent-processing loop of `get_execution_order`:
decrementing the in-degree of every dependent of the freshly emitted task
re-establishes the in-degree bookkeeping and the readiness of the queue with
respect to the extended result list. -/
theorem processDependents_spec (s : TaskScheduler) (result' : List String) :
    ∀ (ds : List String) (deg : List (String × Int)) (q : List String),
      ds.Nodup →
      (∀ d ∈ ds, d ∈ s.taskIds) →
      (∀ tid ∈ s.taskIds, (deg.find? (fun p => p.1 == tid)).isSome = true) →
      (∀ d ∈ ds, degGet deg d =
        (((s.depsOf d).filter (fun x => !(result'.contains x))).length : Int) + 1) →
      (∀ tid ∈ s.taskIds, tid ∉ ds →
        degGet deg tid =
          (((s.depsOf tid).filter (fun x => !(result'.contains x))).length : Int)) →
      q.Nodup →
      (∀ x ∈ q, x ∈ s.taskIds) →
      (∀ x ∈ q, x ∉ result') →
      (∀ d ∈ ds, d ∉ q) →
      (∀ d ∈ ds, d ∉ result') →
      (∀ tid ∈ s.taskIds, tid ∉ ds →
        ((tid ∈ q ∨ tid ∈ result') ↔ (∀ x ∈ s.depsOf tid, x ∈ result'))) →
      ((∀ tid ∈ s.taskIds,
          ((processDependents ds deg q).1.find? (fun p => p.1 == tid)).isSome = true) ∧
        (∀ tid ∈ s.taskIds, degGet (processDependents ds deg q).1 tid =
          (((s.depsOf tid).filter (fun x => !(result'.contains x))).length : Int)) ∧
        (processDependents ds deg q).2.Nodup ∧
        (∀ x ∈ (processDependents ds deg q).2, x ∈ s.taskIds) ∧
        (∀ x ∈ (processDependents ds deg q).2, x ∉ result') ∧
        (∀ tid ∈ s.taskIds,
          ((tid ∈ (processDependents ds deg q).2 ∨ tid ∈ result') ↔
            (∀ x ∈ s.depsOf tid, x ∈ result')))) := by
  intro ds
  induction ds with
  | nil =>
    intro deg q _ _ hkeys _ hother hqnd hqsub hqres _ _ hready
    exact ⟨hkeys, fun tid ht => hother tid ht (by simp), hqnd, hqsub, hqres,
      fun tid ht => hready tid ht (by simp)⟩
  | cons d ds ih =>
    intro deg q hnd hsub hkeys hdsdeg hother hqnd hqsub hqres hdsq hdsres hready
    rw [List.nodup_cons] at hnd
    have hd_ids : d ∈ s.taskIds := hsub d (by simp)
    have hkeyd : (deg.find? (fun p => p.1 == d)).isSome = true := hkeys d hd_ids
    have hdm := hdsdeg d (by simp)
    have hdec : degGet (degDec deg d) d =
        ((((s.depsOf d).filter (fun x => !(result'.contains x))).length : Nat) : Int) := by
      rw [degGet_degDec_self deg d hkeyd, hdm]
      omega
    have hd_q : d ∉ q := hdsq d (by simp)
    have hd_res : d ∉ result' := hdsres d (by simp)
    have hpd : processDependents (d :: ds) deg q =
        processDependents ds (degDec deg d)
          (if (degGet (degDec deg d) d == 0) = true then q ++ [d] else q) := rfl
    rw [hpd]
    have hkeys1 : ∀ tid ∈ s.taskIds,
        ((degDec deg d).find? (fun p => p.1 == tid)).isSome = true :=
      fun tid ht => degDec_keys deg d tid (hkeys tid ht)
    have hdsdeg1 : ∀ e ∈ ds, degGet (degDec deg d) e =
        (((s.depsOf e).filter (fun x => !(result'.contains x))).length : Int) + 1 := by
      intro e he
      have hne : e ≠ d := fun h => hnd.1 (h ▸ he)
      rw [degGet_degDec_ne deg d e hne]
      exact hdsdeg e (by simp [he])
    have hother1 : ∀ tid ∈ s.taskIds, tid ∉ ds →
        degGet (degDec deg d) tid =
          (((s.depsOf tid).filter (fun x => !(result'.contains x))).length : Int) := by
      intro tid ht htd
      by_cases he : tid = d
      · subst he
        exact hdec
      · rw [degGet_degDec_ne deg d tid he]
        exact hother tid ht (by simp [htd, he])
    by_cases hz : ((s.depsOf d).filter (fun x => !(result'.contains x))).length = 0
    · have hcond : (degGet (degDec deg d) d == 0) = true := by
        rw [hdec, hz]
        rfl
      rw [if_pos hcond]
      have hdeps_sub : ∀ x ∈ s.depsOf d, x ∈ result' := by
        intro x hx
        have hfe : (s.depsOf d).filter (fun x => !(result'.contains x)) = [] :=
          List.length_eq_zero.mp hz
        have := List.filter_eq_nil_iff.mp hfe x hx
        by_contra hxr
        exact this (by simp [hxr])
      refine ih (degDec deg d) (q ++ [d]) hnd.2 (fun e he => hsub e (by simp [he]))
        hkeys1 hdsdeg1 hother1 ?_ ?_ ?_ ?_ (fun e he => hdsres e (by simp [he])) ?_
      · rw [List.nodup_append]
        exact ⟨hqnd, List.nodup_singleton d, by
          intro x hx hx1
          have : x = d := by simpa using hx1
          exact hd_q (this ▸ hx)⟩
      · intro x hx
        rcases (mem_append_single_iff q d x).mp hx with h | h
        · exact hqsub x h
        · subst h; exact hd_ids
      · intro x hx
        rcases (mem_append_single_iff q d x).mp hx with h | h
        · exact hqres x h
        · subst h; exact hd_res
      · intro e he
        intro hmem
        rcases (mem_append_single_iff q d e).mp hmem with h | h
        · exact hdsq e (by simp [he]) h
        · exact hnd.1 (h ▸ he)
      · intro tid ht htd
        by_cases he : tid = d
        · subst he
          constructor
          · intro _; exact hdeps_sub
          · intro _
            exact Or.inl ((mem_append_single_iff q tid tid).mpr (Or.inr rfl))
        · have := hready tid ht (by simp [htd, he])
          constructor
          · intro hmem
            apply this.mp
            rcases hmem with hmem | hmem
            · rcases (mem_append_single_iff q d tid).mp hmem with h | h
              · exact Or.inl h
              · exact absurd h he
            · exact Or.inr hmem
          · intro hdeps
            rcases this.mpr hdeps with h | h
            · exact Or.inl ((mem_append_single_iff q d tid).mpr (Or.inl h))
            · exact Or.inr h
    · have hcond : ¬((degGet (degDec deg d) d == 0) = true) := by
        rw [hdec]
        simpa using hz
      rw [if_neg hcond]
      have hdeps_not_sub : ¬(∀ x ∈ s.depsOf d, x ∈ result') := by
        intro hall
        apply hz
        rw [List.length_eq_zero, List.filter_eq_nil_iff]
        intro x hx
        simp [hall x hx]
      refine ih (degDec deg d) q hnd.2 (fun e he => hsub e (by simp [he]))
        hkeys1 hdsdeg1 ?_ hqnd hqsub hqres
        (fun e he => hdsq e (by simp [he]))
        (fun e he => hdsres e (by simp [he])) ?_
      · intro tid ht htd
        by_cases he : tid = d
        · subst he
          exact hdec
        · rw [degGet_degDec_ne deg d tid he]
          exact hother tid ht (by simp [htd, he])
      · intro tid ht htd
        by_cases he : tid = d
        · subst he
          constructor
          · intro hmem
            rcases hmem with h | h
            · exact absurd h hd_q
            · exact absurd h hd_res
          · intro hdeps
            exact absurd hdeps hdeps_not_sub
        · exact hready tid ht (by simp [htd, he])

theorem kahnLoop_succ (s : TaskScheduler) (fuel : Nat) (queue : List String)
    (deg : List (String × Int)) (result : List String) :
    kahnLoop s (fuel + 1) queue deg result =
      match sortIdsByPrioDesc s queue with
      | [] => result
      | current :: rest =>
        kahnLoop s fuel (processDependents (s.revDepsOf current) deg rest).2
          (processDependents (s.revDepsOf current) deg rest).1 (result ++ [current]) := rfl

/-- Main invariant argument for the `while queue:` loop of
`get_execution_order`. -/
theorem kahnLoop_spec (s : TaskScheduler) (hwf : WellFormed s) :
    ∀ (fuel : Nat) (queue : List String) (deg : List (String × Int))
      (result : List String),
      KahnInv s queue deg result →
      (∀ tid ∈ s.taskIds, (deg.find? (fun p => p.1 == tid)).isSome = true) →
      s.taskIds.length + 1 ≤ result.length + fuel →
      ((kahnLoop s fuel queue deg result).Nodup ∧
        (∀ x ∈ kahnLoop s fuel queue deg result, x ∈ s.taskIds) ∧
        TopoBuilt s (kahnLoop s fuel queue deg result) ∧
        (∀ tid ∈ s.taskIds, (tid ∈ kahnLoop s fuel queue deg result ↔
          ∀ d ∈ s.depsOf tid, d ∈ kahnLoop s fuel queue deg result))) := by
  intro fuel
  induction fuel with
  | zero =>
    intro queue deg result hinv hkeys hfuel
    exfalso
    have hsub : List.Subperm result s.taskIds :=
      List.subperm_of_subset hinv.resNodup hinv.resSub
    have := hsub.length_le
    omega
  | succ fuel ihf =>
    intro queue deg result hinv hkeys hfuel
    have hperm : (sortIdsByPrioDesc s queue).Perm queue := sortIdsByPrioDesc_perm s queue
    rw [kahnLoop_succ]
    cases hQ : sortIdsByPrioDesc s queue with
    | nil =>
      have hqe : queue = [] := by
        rw [hQ] at hperm
        exact (hperm.symm).eq_nil
      refine ⟨hinv.resNodup, hinv.resSub, hinv.topo, ?_⟩
      intro tid ht
      have := hinv.ready tid ht
      rw [hqe] at this
      simpa using this
    | cons current rest =>
      rw [hQ] at hperm
      have hcr_mem : current ∈ queue := hperm.mem_iff.mp (by simp)
      have hcurrent_ids : current ∈ s.taskIds := hinv.qSub current hcr_mem
      have hcurrent_nres : current ∉ result := hinv.qNotRes current hcr_mem
      have hQnodup : (current :: rest).Nodup := hperm.nodup_iff.mpr hinv.qNodup
      rw [List.nodup_cons] at hQnodup
      have hrest_queue : ∀ x ∈ rest, x ∈ queue := fun x hx =>
        hperm.mem_iff.mp (by simp [hx])
      have hdeps_current : ∀ x ∈ s.depsOf current, x ∈ result :=
        (hinv.ready current hcurrent_ids).mp (Or.inl hcr_mem)
      have hres'_nodup : (result ++ [current]).Nodup := by
        rw [List.nodup_append]
        exact ⟨hinv.resNodup, List.nodup_singleton current, by
          intro x hx hx1
          have : x = current := by simpa using hx1
          exact hcurrent_nres (this ▸ hx)⟩
      have hres'_sub : ∀ x ∈ result ++ [current], x ∈ s.taskIds := by
        intro x hx
        rcases (mem_append_single_iff result current x).mp hx with h | h
        · exact hinv.resSub x h
        · subst h; exact hcurrent_ids
      have hds_facts : ∀ d ∈ s.revDepsOf current,
          d ∈ s.taskIds ∧ current ∈ s.depsOf d ∧ d ∉ queue ∧ d ∉ result := by
        intro d hd
        obtain ⟨hd_ids, hd_dep⟩ := (mem_revDepsOf s hwf current d).mp hd
        have hnot : ¬(∀ x ∈ s.depsOf d, x ∈ result) := fun hall =>
          hcurrent_nres (hall current hd_dep)
        have hrd := hinv.ready d hd_ids
        exact ⟨hd_ids, hd_dep,
          fun hq => hnot (hrd.mp (Or.inl hq)),
          fun hr => hnot (hrd.mp (Or.inr hr))⟩
      have hnotin_revdeps : ∀ tid ∈ s.taskIds, tid ∉ s.revDepsOf current →
          current ∉ s.depsOf tid := by
        intro tid ht htd hc
        exact htd ((mem_revDepsOf s hwf current tid).mpr ⟨ht, hc⟩)
      obtain ⟨k1, dv1, qn1, qs1, qr1, rd1⟩ :=
        processDependents_spec s (result ++ [current]) (s.revDepsOf current) deg rest
          (revDepsOf_nodup s hwf current)
          (fun d hd => (hds_facts d hd).1)
          hkeys
          (by
            intro d hd
            obtain ⟨hd_ids, hd_dep, hd_q, hd_res⟩ := hds_facts d hd
            have hlen := filter_drop_completed result current (s.depsOf d)
              (nodup_depsOf s d) hd_dep hcurrent_nres
            have := hinv.degVal d hd_ids
            omega)
          (by
            intro tid ht htd
            have hc := hnotin_revdeps tid ht htd
            rw [filter_not_contains_congr (s.depsOf tid) result current hc]
            exact hinv.degVal tid ht)
          hQnodup.2
          (fun x hx => hinv.qSub x (hrest_queue x hx))
          (by
            intro x hx
            intro hmem
            rcases (mem_append_single_iff result current x).mp hmem with h | h
            · exact hinv.qNotRes x (hrest_queue x hx) h
            · exact hQnodup.1 (h ▸ hx))
          (fun d hd hr => (hds_facts d hd).2.2.1 (hrest_queue d hr))
          (by
            intro d hd
            obtain ⟨-, -, hd_q, hd_res⟩ := hds_facts d hd
            intro hmem
            rcases (mem_append_single_iff result current d).mp hmem with h | h
            · exact hd_res h
            · exact hd_q (h ▸ hcr_mem))
          (by
            intro tid ht htd
            have hc := hnotin_revdeps tid ht htd
            have hrhs : (∀ x ∈ s.depsOf tid, x ∈ result ++ [current]) ↔
                (∀ x ∈ s.depsOf tid, x ∈ result) := by
              constructor
              · intro hall x hx
                rcases (mem_append_single_iff result current x).mp (hall x hx) with h | h
                · exact h
                · exact absurd (h ▸ hx) hc
              · intro hall x hx
                exact (mem_append_single_iff result current x).mpr (Or.inl (hall x hx))
            rw [hrhs]
            have hold := hinv.ready tid ht
            constructor
            · intro hmem
              apply hold.mp
              rcases hmem with h | h
              · exact Or.inl (hrest_queue tid h)
              · rcases (mem_append_single_iff result current tid).mp h with h2 | h2
                · exact Or.inr h2
                · subst h2
                  exact Or.inl hcr_mem
            · intro hdeps
              rcases hold.mpr hdeps with h | h
              · have : tid ∈ current :: rest := hperm.mem_iff.mpr h
                rcases List.mem_cons.mp this with h2 | h2
                · subst h2
                  exact Or.inr ((mem_append_single_iff result tid tid).mpr (Or.inr rfl))
                · exact Or.inl h2
              · exact Or.inr ((mem_append_single_iff result current tid).mpr (Or.inl h)))
      have hinv' : KahnInv s (processDependents (s.revDepsOf current) deg rest).2
          (processDependents (s.revDepsOf current) deg rest).1 (result ++ [current]) :=
        { resNodup := hres'_nodup
          resSub := hres'_sub
          qNodup := qn1
          qSub := qs1
          qNotRes := qr1
          degVal := dv1
          ready := rd1
          topo := TopoBuilt.snoc result current hinv.topo hdeps_current }
      apply ihf _ _ _ hinv' k1
      have : (result ++ [current]).length = result.length + 1 := by simp
      omega

theorem degInit_find (s : TaskScheduler) (tid : String) :
    (s.task_registry.map (fun t => (t.id, (t.dependencies.dedup.length : Int)))).find?
        (fun p => p.1 == tid) =
      (s.findTask tid).map (fun t => (t.id, (t.dependencies.dedup.length : Int))) := by
  rw [List.find?_map]
  rfl

theorem degGet_init (s : TaskScheduler) (hwf : WellFormed s) (t : AgentTask)
    (ht : t ∈ s.task_registry) :
    degGet (s.task_registry.map (fun u => (u.id, (u.dependencies.dedup.length : Int))))
      t.id = (t.dependencies.dedup.length : Int) := by
  unfold degGet
  rw [degInit_find, findTask_of_mem s hwf t ht]
  rfl

theorem degInit_keys (s : TaskScheduler) (tid : String) (h : tid ∈ s.taskIds) :
    ((s.task_registry.map (fun u => (u.id, (u.dependencies.dedup.length : Int)))).find?
      (fun p => p.1 == tid)).isSome = true := by
  rw [degInit_find]
  obtain ⟨t, hf, -⟩ := findTask_isSome_of_mem s tid h
  rw [hf]
  rfl

theorem mem_initQueue (s : TaskScheduler) (hwf : WellFormed s) (tid : String) :
    tid ∈ ((s.task_registry.map
        (fun t => (t.id, (t.dependencies.dedup.length : Int)))).filter
        (fun p => p.2 == 0)).map (fun p => p.1) ↔
      (∃ t ∈ s.task_registry, t.id = tid ∧ t.dependencies.dedup.length = 0) := by
  simp only [List.mem_map, List.mem_filter]
  constructor
  · rintro ⟨p, ⟨hp, hz⟩, hid⟩
    rcases hp with ⟨t, htr, hpt⟩
    refine ⟨t, htr, ?_, ?_⟩
    · rw [← hid, ← hpt]
    · have h2 : p.2 = 0 := by simpa using hz
      rw [← hpt] at h2
      simpa using h2
  · rintro ⟨t, htr, hid, hlen⟩
    exact ⟨(t.id, (t.dependencies.dedup.length : Int)),
      ⟨⟨t, htr, rfl⟩, by simpa using hlen⟩, hid⟩

theorem initQueue_nodup (s : TaskScheduler) (hwf : WellFormed s) :
    (((s.task_registry.map
        (fun t => (t.id, (t.dependencies.dedup.length : Int)))).filter
        (fun p => p.2 == 0)).map (fun p => p.1)).Nodup := by
  have h1 : List.Sublist
      (((s.task_registry.map
        (fun t => (t.id, (t.dependencies.dedup.length : Int)))).filter
        (fun p => p.2 == 0)).map (fun p => p.1))
      ((s.task_registry.map
        (fun t => (t.id, (t.dependencies.dedup.length : Int)))).map (fun p => p.1)) :=
    (List.filter_sublist _).map _
  have h2 : (s.task_registry.map
      (fun t => (t.id, (t.dependencies.dedup.length : Int)))).map (fun p => p.1) =
      s.taskIds := by
    rw [List.map_map]
    rfl
  rw [h2] at h1
  exact List.Nodup.sublist h1 hwf

/-- The initial state of Kahn's algorithm satisfies the loop invariant. -/
theorem kahnInit (s : TaskScheduler) (hwf : WellFormed s) :
    KahnInv s
      (((s.task_registry.map
        (fun t => (t.id, (t.dependencies.dedup.length : Int)))).filter
        (fun p => p.2 == 0)).map (fun p => p.1))
      (s.task_registry.map (fun t => (t.id, (t.dependencies.dedup.length : Int))))
      [] := by
  refine
    { resNodup := List.nodup_nil
      resSub := by intro r hr; cases hr
      qNodup := initQueue_nodup s hwf
      qSub := ?_
      qNotRes := by intro q hq hr; cases hr
      degVal := ?_
      ready := ?_
      topo := TopoBuilt.nil }
  · intro q hq
    rcases (mem_initQueue s hwf q).mp hq with ⟨t, htr, hid, -⟩
    exact (mem_taskIds_iff s q).mpr ⟨t, htr, hid⟩
  · intro tid ht
    rcases (mem_taskIds_iff s tid).mp ht with ⟨t, htr, hid⟩
    subst hid
    rw [degGet_init s hwf t htr, depsOf_eq_of_mem s hwf t htr]
    have : t.dependencies.dedup.filter (fun x => !(([] : List String).contains x)) =
        t.dependencies.dedup := by simp
    rw [this]
  · intro tid ht
    rcases (mem_taskIds_iff s tid).mp ht with ⟨t, htr, hid⟩
    subst hid
    rw [depsOf_eq_of_mem s hwf t htr]
    constructor
    · rintro (hq | hr)
      · rcases (mem_initQueue s hwf t.id).mp hq with ⟨u, hur, huid, hulen⟩
        have hut : u = t := by
          have h1 := findTask_of_mem s hwf u hur
          rw [huid] at h1
          have h2 := findTask_of_mem s hwf t htr
          rw [h2] at h1
          exact (Option.some.inj h1).symm
        subst hut
        intro d hd
        rw [List.length_eq_zero.mp hulen] at hd
        cases hd
      · cases hr
    · intro hall
      left
      refine (mem_initQueue s hwf t.id).mpr ⟨t, htr, rfl, ?_⟩
      rw [List.length_eq_zero]
      by_contra hne
      obtain ⟨d, hd⟩ := List.exists_mem_of_ne_nil _ hne
      cases hall d hd

/-- The run of `get_execution_order` and the properties of the list it
computes. -/
theorem geo_run (s : TaskScheduler) (hwf : WellFormed s) :
    ∃ res : List String,
      s.get_execution_order =
        (if res.length == s.task_registry.length then Except.ok res
         else Except.error "Cannot determine execution order due to cycles") ∧
      res.Nodup ∧ (∀ x ∈ res, x ∈ s.taskIds) ∧ TopoBuilt s res ∧
      (∀ tid ∈ s.taskIds, (tid ∈ res ↔ ∀ d ∈ s.depsOf tid, d ∈ res)) := by
  have hlen : s.taskIds.length = s.task_registry.length := by
    unfold taskIds
    simp
  obtain ⟨hnd, hsub, htopo, hiff⟩ := kahnLoop_spec s hwf (s.task_registry.length + 1)
    (((s.task_registry.map
      (fun t => (t.id, (t.dependencies.dedup.length : Int)))).filter
      (fun p => p.2 == 0)).map (fun p => p.1))
    (s.task_registry.map (fun t => (t.id, (t.dependencies.dedup.length : Int))))
    [] (kahnInit s hwf) (fun tid ht => degInit_keys s tid ht) (by simp [hlen])
  exact ⟨_, rfl, hnd, hsub, htopo, hiff⟩

theorem topoBuilt_topoOrdered (s : TaskScheduler) (r : List String)
    (h : TopoBuilt s r) : TopoOrdered s r := by
  induction h with
  | nil =>
    intro l1 u l2 heq
    exact absurd heq.symm (by simp)
  | snoc r c hr hdeps ih =>
    intro l1 u l2 heq d hd
    rcases List.eq_nil_or_concat l2 with h2 | ⟨l2', b, hb⟩
    · subst h2
      obtain ⟨h3, h4⟩ := List.append_inj' heq.symm (by simp)
      have huc : u = c := by simpa using h4
      subst huc
      exact h3 ▸ hdeps d hd
    · rw [List.concat_eq_append] at hb
      subst hb
      have heq2 : r ++ [c] = (l1 ++ u :: l2') ++ [b] := by
        rw [heq]
        simp
      obtain ⟨h3, h4⟩ := List.append_inj' heq2 (by simp)
      exact ih l1 u l2' h3 d hd

theorem le_foldr_max (f : String → Nat) :
    ∀ (l : List String) (x : String), x ∈ l →
      f x ≤ l.foldr (fun y acc => max (f y) acc) 0 := by
  intro l
  induction l with
  | nil => intro x hx; cases hx
  | cons y ys ih =>
    intro x hx
    rcases List.mem_cons.mp hx with h | h
    · subst h
      exact le_max_left _ _
    · exact le_trans (ih x h) (le_max_right _ _)

/-- A topologically built list carries a rank function that strictly
decreases along dependency edges. -/
theorem topoBuilt_rank (s : TaskScheduler) (r : List String) (h : TopoBuilt s r) :
    r.Nodup → ∃ f : String → Nat, ∀ u ∈ r, ∀ v, EdgeD s u v → v ∈ r ∧ f v < f u := by
  induction h with
  | nil =>
    intro _
    exact ⟨fun _ => 0, by intro u hu; cases hu⟩
  | snoc r c hr hdeps ih =>
    intro hnd
    rw [List.nodup_append] at hnd
    have hcr : c ∉ r := by
      intro hc
      exact hnd.2.2 hc (by simp)
    obtain ⟨f, hf⟩ := ih hnd.1
    refine ⟨fun x => if x = c then (r.foldr (fun y acc => max (f y) acc) 0) + 1 else f x, ?_⟩
    intro u hu v hedge
    rcases (mem_append_single_iff r c u).mp hu with hur | huc
    · obtain ⟨hv, hlt⟩ := hf u hur v hedge
      have hvne : v ≠ c := fun he => hcr (he ▸ hv)
      have hune : u ≠ c := fun he => hcr (he ▸ hur)
      refine ⟨(mem_append_single_iff r c v).mpr (Or.inl hv), ?_⟩
      simp only [if_neg hvne, if_neg hune]
      exact hlt
    · subst huc
      have hv : v ∈ r := hdeps v hedge
      have hvne : v ≠ u := fun he => hcr (he ▸ hv)
      refine ⟨(mem_append_single_iff r u v).mpr (Or.inl hv), ?_⟩
      simp only [if_neg hvne, if_pos rfl]
      exact Nat.lt_succ_of_le (le_foldr_max f r v hv)

theorem chain_descend (s : TaskScheduler) (S : String → Prop) (f : String → Nat)
    (h : ∀ u v, S u → EdgeD s u v → S v ∧ f v < f u) :
    ∀ (rest : List String) (x y : String),
      List.Chain (EdgeD s) x (y :: rest) → S x →
      ∃ w, (y :: rest).getLast? = some w ∧ S w ∧ f w < f x := by
  intro rest
  induction rest with
  | nil =>
    intro x y hch hS
    rw [List.chain_cons] at hch
    obtain ⟨hSy, hlt⟩ := h x y hS hch.1
    exact ⟨y, rfl, hSy, hlt⟩
  | cons z rest ih =>
    intro x y hch hS
    rw [List.chain_cons] at hch
    obtain ⟨hSy, hlty⟩ := h x y hS hch.1
    obtain ⟨w, hw, hSw, hltw⟩ := ih y z hch.2 hSy
    exact ⟨w, by rw [List.getLast?_cons_cons]; exact hw, hSw, lt_trans hltw hlty⟩

/-- No cycle can live inside a set carrying a strictly decreasing rank. -/
theorem no_cycle_of_rank (s : TaskScheduler) (S : String → Prop) (f : String → Nat)
    (h : ∀ u v, S u → EdgeD s u v → S v ∧ f v < f u)
    (l : List String) (hcyc : IsCycle s l) (hS : ∀ x ∈ l, S x) : False := by
  obtain ⟨a, rest, rfl, hchain⟩ := hcyc
  have hSa : S a := hS a (by simp)
  cases hr : rest ++ [a] with
  | nil => exact absurd hr (by simp)
  | cons y rest' =>
    rw [hr] at hchain
    obtain ⟨w, hw, hSw, hlt⟩ := chain_descend s S f h rest' a y hchain hSa
    have hlast : (y :: rest').getLast? = some a := by
      rw [← hr]
      exact List.getLast?_concat rest
    rw [hlast] at hw
    have hwa : a = w := Option.some.inj hw
    subst hwa
    omega

theorem chain_walk (s : TaskScheduler) (g : Nat → String)
    (hgE : ∀ n, EdgeD s (g n) (g (n + 1))) :
    ∀ (m i : Nat),
      List.Chain (EdgeD s) (g i) ((List.range m).map (fun k => g (i + k + 1))) := by
  intro m
  induction m with
  | zero =>
    intro i
    exact List.Chain.nil
  | succ m ih =>
    intro i
    rw [List.range_succ_eq_map, List.map_cons, List.map_map]
    refine List.Chain.cons (by simpa using hgE i) ?_
    have heq : (List.range m).map ((fun k => g (i + k + 1)) ∘ (fun x => x + 1)) =
        (List.range m).map (fun k => g ((i + 1) + k + 1)) := by
      apply List.map_congr_left
      intro k hk
      show g (i + (k + 1) + 1) = g ((i + 1) + k + 1)
      congr 1
      omega
    rw [heq]
    exact ih (i + 1)

theorem cycle_from_repeat (s : TaskScheduler) (g : Nat → String)
    (hgE : ∀ n, EdgeD s (g n) (g (n + 1)))
    (i j : Nat) (hij : i < j) (heq : g i = g j) : ∃ l, IsCycle s l := by
  refine ⟨g i :: (List.range (j - i - 1)).map (fun k => g (i + k + 1)),
    g i, _, rfl, ?_⟩
  have hm : j - i - 1 + 1 = j - i := by omega
  have hch := chain_walk s g hgE (j - i) i
  rw [← hm, List.range_succ, List.map_append, List.map_cons, List.map_nil] at hch
  have hlast : g (i + (j - i - 1) + 1) = g i := by
    have hj : i + (j - i - 1) + 1 = j := by omega
    rw [hj, ← heq]
  rw [hlast] at hch
  exact hch

/-- Any nonempty set of nodes each of which has a dependency edge back into
the set contains a cycle. -/
theorem exists_cycle_of_progress (s : TaskScheduler) (S : List String)
    (hne : S ≠ []) (hstep : ∀ x ∈ S, ∃ y, EdgeD s x y ∧ y ∈ S) :
    ∃ l, IsCycle s l := by
  classical
  obtain ⟨x0, hx0⟩ := List.exists_mem_of_ne_nil S hne
  have hF : ∀ x ∈ S,
      EdgeD s x (if h : ∃ y, EdgeD s x y ∧ y ∈ S then h.choose else x) ∧
        (if h : ∃ y, EdgeD s x y ∧ y ∈ S then h.choose else x) ∈ S := by
    intro x hx
    have hex := hstep x hx
    rw [dif_pos hex]
    exact hex.choose_spec
  have hgsucc : ∀ n,
      (fun x => if h : ∃ y, EdgeD s x y ∧ y ∈ S then h.choose else x)^[n + 1] x0 =
        (fun x => if h : ∃ y, EdgeD s x y ∧ y ∈ S then h.choose else x)
          ((fun x => if h : ∃ y, EdgeD s x y ∧ y ∈ S then h.choose else x)^[n] x0) :=
    fun n => Function.iterate_succ_apply' _ n x0
  have hgS : ∀ n,
      (fun x => if h : ∃ y, EdgeD s x y ∧ y ∈ S then h.choose else x)^[n] x0 ∈ S := by
    intro n
    induction n with
    | zero => exact hx0
    | succ n ih =>
      rw [hgsucc]
      exact (hF _ ih).2
  have hgE : ∀ n, EdgeD s
      ((fun x => if h : ∃ y, EdgeD s x y ∧ y ∈ S then h.choose else x)^[n] x0)
      ((fun x => if h : ∃ y, EdgeD s x y ∧ y ∈ S then h.choose else x)^[n + 1] x0) := by
    intro n
    rw [hgsucc]
    exact (hF _ (hgS n)).1
  have hcard : Fintype.card (Fin S.length) < Fintype.card (Fin (S.length + 1)) := by
    simp
  obtain ⟨A, B, hAB, hGAB⟩ := Fintype.exists_ne_map_eq_of_card_lt
    (fun k : Fin (S.length + 1) =>
      (⟨S.indexOf ((fun x => if h : ∃ y, EdgeD s x y ∧ y ∈ S then h.choose else x)^[k.val] x0),
        List.indexOf_lt_length.mpr (hgS k.val)⟩ : Fin S.length)) hcard
  have hgab :
      (fun x => if h : ∃ y, EdgeD s x y ∧ y ∈ S then h.choose else x)^[A.val] x0 =
        (fun x => if h : ∃ y, EdgeD s x y ∧ y ∈ S then h.choose else x)^[B.val] x0 := by
    have hidx := congrArg Fin.val hGAB
    exact (List.indexOf_inj (hgS A.val) (hgS B.val)).mp hidx
  rcases Nat.lt_or_ge A.val B.val with hij | hge
  · exact cycle_from_repeat s _ hgE A.val B.val hij hgab
  · have hij : B.val < A.val := by
      rcases Nat.lt_or_ge B.val A.val with h2 | h2
      · exact h2
      · exact absurd (Fin.ext (by omega)) hAB
    exact cycle_from_repeat s _ hgE B.val A.val hij hgab.symm

theorem chain_sources {R : String → String → Prop} :
    ∀ (mid : List String) (x fin : String), List.Chain R x (mid ++ [fin]) →
      ∀ z ∈ x :: mid, ∃ y, R z y := by
  intro mid
  induction mid with
  | nil =>
    intro x fin hch z hz
    rw [List.nil_append, List.chain_cons] at hch
    have hzx : z = x := by simpa using hz
    subst hzx
    exact ⟨fin, hch.1⟩
  | cons w mid ih =>
    intro x fin hch z hz
    rw [List.cons_append, List.chain_cons] at hch
    rcases List.mem_cons.mp hz with hzx | hzw
    · subst hzx
      exact ⟨w, hch.1⟩
    · exact ih w fin hch.2 z hzw

theorem cycle_mem_taskIds (s : TaskScheduler) (l : List String)
    (hcyc : IsCycle s l) : ∀ x ∈ l, x ∈ s.taskIds := by
  obtain ⟨a, rest, rfl, hchain⟩ := hcyc
  intro x hx
  obtain ⟨y, hxy⟩ := chain_sources rest a a hchain x hx
  exact mem_taskIds_of_edge s hxy

theorem res_perm_of_length (s : TaskScheduler) (hwf : WellFormed s)
    (res : List String) (hnd : res.Nodup) (hsub : ∀ x ∈ res, x ∈ s.taskIds)
    (hlen : (res.length == s.task_registry.length) = true) :
    res.Perm s.taskIds := by
  apply (List.subperm_of_subset hnd hsub).perm_of_length_le
  have h2 : s.taskIds.length = s.task_registry.length := by simp [taskIds]
  have h3 : res.length = s.task_registry.length := by simpa using hlen
  omega

/-- An incomplete result is impossible on an acyclic, resolved registry: the
stuck tasks would all have a stuck dependency, yielding a cycle. -/
theorem res_complete (s : TaskScheduler) (hwf : WellFormed s)
    (hres : Resolved s) (hacyc : Acyclic s) (res : List String)
    (hiff : ∀ tid ∈ s.taskIds, (tid ∈ res ↔ ∀ d ∈ s.depsOf tid, d ∈ res)) :
    ∀ tid ∈ s.taskIds, tid ∈ res := by
  by_contra hc
  push_neg at hc
  obtain ⟨tid0, ht0, hn0⟩ := hc
  have hne : s.taskIds.filter (fun x => !(res.contains x)) ≠ [] := by
    intro he
    exact (List.filter_eq_nil_iff.mp he tid0 ht0) (by simp [hn0])
  have hstep : ∀ x ∈ s.taskIds.filter (fun x => !(res.contains x)),
      ∃ y, EdgeD s x y ∧ y ∈ s.taskIds.filter (fun x => !(res.contains x)) := by
    intro x hx
    obtain ⟨hxid, hxres⟩ := List.mem_filter.mp hx
    have hxres' : x ∉ res := by simpa using hxres
    have hnot : ¬(∀ d ∈ s.depsOf x, d ∈ res) := fun hall =>
      hxres' ((hiff x hxid).mpr hall)
    push_neg at hnot
    obtain ⟨d, hd, hdres⟩ := hnot
    have hdid : d ∈ s.taskIds := by
      rcases (mem_taskIds_iff s x).mp hxid with ⟨t, htr, hid⟩
      subst hid
      rw [depsOf_eq_of_mem s hwf t htr, List.mem_dedup] at hd
      exact hres t htr d hd
    exact ⟨d, hd, List.mem_filter.mpr ⟨hdid, by simp [hdres]⟩⟩
  obtain ⟨l, hcyc⟩ := exists_cycle_of_progress s
    (s.taskIds.filter (fun x => !(res.contains x))) hne hstep
  exact hacyc l hcyc

/-- C2.  On a well-formed registry, `get_execution_order` returns, for every
acyclic registry whose dependency ids all resolve, a permutation of all task
ids in which every task appears after all of its dependencies; and whenever
the dependency relation has a cycle it raises `OrchestrationException`
(modelled as `.error`) instead of returning an order. -/
theorem execution_order_topologically_sound (s : TaskScheduler)
    (hwf : WellFormed s) :
    (Resolved s → Acyclic s →
      ∃ res, s.get_execution_order = Except.ok res ∧
        res.Perm s.taskIds ∧ TopoOrdered s res) ∧
    (∀ l, IsCycle s l → ∃ e, s.get_execution_order = Except.error e) := by
  obtain ⟨res, hgeo, hnd, hsub, htopo, hiff⟩ := geo_run s hwf
  constructor
  · intro hres hacyc
    have hall : ∀ tid ∈ s.taskIds, tid ∈ res := res_complete s hwf hres hacyc res hiff
    have hperm : res.Perm s.taskIds := List.Subperm.antisymm
      (List.subperm_of_subset hnd hsub)
      (List.subperm_of_subset hwf hall)
    have hlen : (res.length == s.task_registry.length) = true := by
      have h1 := hperm.length_eq
      have h2 : s.taskIds.length = s.task_registry.length := by simp [taskIds]
      simp only [beq_iff_eq]
      omega
    rw [hgeo, if_pos hlen]
    exact ⟨res, rfl, hperm, topoBuilt_topoOrdered s res htopo⟩
  · intro l hcyc
    by_cases hlen : (res.length == s.task_registry.length) = true
    · exfalso
      have hperm := res_perm_of_length s hwf res hnd hsub hlen
      obtain ⟨f, hf⟩ := topoBuilt_rank s res htopo hnd
      exact no_cycle_of_rank s (fun x => x ∈ res) f
        (fun u v hu he => hf u hu v he) l hcyc
        (fun x hx => hperm.mem_iff.mpr (cycle_mem_taskIds s l hcyc x hx))
    · rw [hgeo, if_neg hlen]
      exact ⟨_, rfl⟩

/-- C9.  `get_execution_order` raises its cannot-order exception not only
for cyclic graphs but also whenever some task declares a dependency id
absent from the registry (the missing id is counted in the in-degree but
never decremented, so fewer tasks than registered are ordered and the final
length check fails); it succeeds exactly when the dependency relation is
acyclic and every dependency id resolves. -/
theorem execution_order_success_iff (s : TaskScheduler) (hwf : WellFormed s) :
    ((∃ t ∈ s.task_registry, ∃ d ∈ t.dependencies, d ∉ s.taskIds) →
      s.get_execution_order =
        Except.error "Cannot determine execution order due to cycles") ∧
    ((∃ res, s.get_execution_order = Except.ok res) ↔ (Resolved s ∧ Acyclic s)) := by
  obtain ⟨res, hgeo, hnd, hsub, htopo, hiff⟩ := geo_run s hwf
  constructor
  · rintro ⟨t, htr, d, hd, hdnot⟩
    have htid : t.id ∈ s.taskIds := (mem_taskIds_iff s t.id).mpr ⟨t, htr, rfl⟩
    have hd_deps : d ∈ s.depsOf t.id := by
      rw [depsOf_eq_of_mem s hwf t htr, List.mem_dedup]
      exact hd
    have hdres : d ∉ res := fun hc => hdnot (hsub d hc)
    have htid_nres : t.id ∉ res := fun hc => hdres ((hiff t.id htid).mp hc d hd_deps)
    have hlen : ¬((res.length == s.task_registry.length) = true) := by
      intro hbeq
      exact htid_nres ((res_perm_of_length s hwf res hnd hsub hbeq).mem_iff.mpr htid)
    rw [hgeo, if_neg hlen]
  · constructor
    · rintro ⟨r, hok⟩
      by_cases hlen : (res.length == s.task_registry.length) = true
      · have hperm := res_perm_of_length s hwf res hnd hsub hlen
        constructor
        · intro t htr d hd
          have htid : t.id ∈ s.taskIds := (mem_taskIds_iff s t.id).mpr ⟨t, htr, rfl⟩
          have htres : t.id ∈ res := hperm.mem_iff.mpr htid
          have hd_deps : d ∈ s.depsOf t.id := by
            rw [depsOf_eq_of_mem s hwf t htr, List.mem_dedup]
            exact hd
          exact hsub d ((hiff t.id htid).mp htres d hd_deps)
        · intro l hcyc
          obtain ⟨f, hf⟩ := topoBuilt_rank s res htopo hnd
          exact no_cycle_of_rank s (fun x => x ∈ res) f
            (fun u v hu he => hf u hu v he) l hcyc
            (fun x hx => hperm.mem_iff.mpr (cycle_mem_taskIds s l hcyc x hx))
      · rw [hgeo, if_neg hlen] at hok
        cases hok
    · rintro ⟨hres, hacyc⟩
      have hall : ∀ tid ∈ s.taskIds, tid ∈ res :=
        res_complete s hwf hres hacyc res hiff
      have hperm : res.Perm s.taskIds := List.Subperm.antisymm
        (List.subperm_of_subset hnd hsub)
        (List.subperm_of_subset hwf hall)
      have hlen : (res.length == s.task_registry.length) = true := by
        have h1 := hperm.length_eq
        have h2 : s.taskIds.length = s.task_registry.length := by simp [taskIds]
        simp only [beq_iff_eq]
        omega
      rw [hgeo, if_pos hlen]
      exact ⟨res, rfl⟩

/-- `chainSched` has no dependency cycle: rank a < b < c decreases along
every dependency edge. -/
theorem chainSched_acyclic : Acyclic chainSched := by
  intro l hcyc
  refine no_cycle_of_rank chainSched (fun x => x ∈ chainSched.taskIds)
    (fun x => if x = "a" then 0 else if x = "b" then 1 else 2) ?_ l hcyc
    (cycle_mem_taskIds chainSched l hcyc)
  intro u v hu he
  have hu' : u = "a" ∨ u = "b" ∨ u = "c" := by
    simpa [chainSched, taskIds, baseTask] using hu
  rcases hu' with hua | hub | huc
  · subst hua
    have he' : v ∈ chainSched.depsOf "a" := he
    rw [show chainSched.depsOf "a" = [] from rfl] at he'
    cases he'
  · subst hub
    have he' : v ∈ chainSched.depsOf "b" := he
    rw [show chainSched.depsOf "b" = ["a"] from rfl] at he'
    have hv : v = "a" := by simpa using he'
    subst hv
    exact ⟨by decide, by decide⟩
  · subst huc
    have he' : v ∈ chainSched.depsOf "c" := he
    rw [show chainSched.depsOf "c" = ["a", "b"] from rfl] at he'
    have hv : v = "a" ∨ v = "b" := by simpa using he'
    rcases hv with hv | hv <;> subst hv
    · exact ⟨by decide, by decide⟩
    · exact ⟨by decide, by decide⟩

/-- Witness for C2 at `chainSched`. -/
theorem execution_order_topologically_sound_witness :
    ∃ res, chainSched.get_execution_order = Except.ok res ∧
      res.Perm chainSched.taskIds ∧ TopoOrdered chainSched res :=
  (execution_order_topologically_sound chainSched
    (by show chainSched.taskIds.Nodup; decide)).1
    (by
      show ∀ t ∈ chainSched.task_registry, ∀ d ∈ t.dependencies, d ∈ chainSched.taskIds
      decide)
    chainSched_acyclic

/-- Witness for C9 at `missingSched`: task b declares the unregistered
dependency zz, so ordering fails. -/
theorem execution_order_success_iff_witness :
    missingSched.get_execution_order =
      Except.error "Cannot determine execution order due to cycles" :=
  (execution_order_success_iff missingSched
    (by show missingSched.taskIds.Nodup; decide)).1
    ⟨baseTask "b" ["zz"] TaskPriority.normal TaskStatus.pending 0 3,
      by decide, "zz", by decide, by decide⟩

theorem dfs_list_of_aux (s : TaskScheduler) (fuel : Nat)
    (haux : DfsAuxProp s fuel) : DfsListProp s fuel := by
  intro ns
  induction ns with
  | nil =>
    intro V S V' S' h hinv
    unfold hasCycleList at h
    injection h with h1 h2
    injection h2 with h2 h3
    subst h2
    subst h3
    exact ⟨fun x hx => hx, rfl, hinv, by simp⟩
  | cons m ns ih =>
    intro V S V' S' h hinv
    unfold hasCycleList at h
    cases hm : hasCycleFrom s fuel m V S with
    | mk b p =>
      cases p with
      | mk V1 S1 =>
        cases b
        · rw [hm] at h
          have h' : hasCycleList s fuel ns V1 S1 = (false, V', S') := h
          obtain ⟨hsub1, hmV1, hmS1, hS1, hinv1⟩ := haux m V S V1 S1 hm hinv
          obtain ⟨hsub2, hS2, hinv2, hmem⟩ := ih V1 S1 V' S' h' hinv1
          subst hS1
          refine ⟨fun x hx => hsub2 (hsub1 hx), hS2, hinv2, ?_⟩
          intro x hx
          rcases List.mem_cons.mp hx with hxm | hxns
          · subst hxm
            exact ⟨hsub2 hmV1, hS2 ▸ hmS1⟩
          · exact hmem x hxns
        · rw [hm] at h
          cases h

theorem dfs_false_inv (s : TaskScheduler) : ∀ fuel, DfsAuxProp s fuel := by
  intro fuel
  induction fuel with
  | zero =>
    intro n V S V' S' h hinv
    unfold hasCycleFrom at h
    by_cases hS : (S.contains n) = true
    · rw [if_pos hS] at h
      cases h
    · rw [if_neg hS] at h
      by_cases hV : (V.contains n) = true
      · rw [if_pos hV] at h
        have hV' : V' = V := (congrArg Prod.fst (congrArg Prod.snd h)).symm
        have hS' : S' = S := (congrArg Prod.snd (congrArg Prod.snd h)).symm
        subst hV'
        subst hS'
        exact ⟨fun x hx => hx, List.mem_of_elem_eq_true hV,
          fun hc => hS (List.elem_eq_true_of_mem hc), rfl, hinv⟩
      · rw [if_neg hV] at h
        cases h
  | succ fuel ihf =>
    intro n V S V' S' h hinv
    have hlist := dfs_list_of_aux s fuel ihf
    unfold hasCycleFrom at h
    by_cases hS : (S.contains n) = true
    · rw [if_pos hS] at h
      cases h
    · rw [if_neg hS] at h
      by_cases hV : (V.contains n) = true
      · rw [if_pos hV] at h
        have hV' : V' = V := (congrArg Prod.fst (congrArg Prod.snd h)).symm
        have hS' : S' = S := (congrArg Prod.snd (congrArg Prod.snd h)).symm
        subst hV'
        subst hS'
        exact ⟨fun x hx => hx, List.mem_of_elem_eq_true hV,
          fun hc => hS (List.elem_eq_true_of_mem hc), rfl, hinv⟩
      · rw [if_neg hV] at h
        have hnV : n ∉ V := fun hc => hV (List.elem_eq_true_of_mem hc)
        have hnS : n ∉ S := fun hc => hS (List.elem_eq_true_of_mem hc)
        cases hrec : hasCycleList s fuel (s.depsOf n) (n :: V) (n :: S) with
        | mk b p =>
          cases p with
          | mk V2 S2 =>
            cases b
            · have h2 : (match hasCycleList s fuel (s.depsOf n) (n :: V) (n :: S) with
                  | (true, v, r) => (true, v, r)
                  | (false, v, r) => (false, v, r.erase n)) = (false, V', S') := h
              rw [hrec] at h2
              have h3 : (false, V2, S2.erase n) = (false, V', S') := h2
              have hV' : V' = V2 := (congrArg Prod.fst (congrArg Prod.snd h3)).symm
              have hS' : S' = S2.erase n := (congrArg Prod.snd (congrArg Prod.snd h3)).symm
              have hinv1 : DfsInv s (n :: V) (n :: S) := by
                obtain ⟨f, hf⟩ := hinv
                refine ⟨f, ?_⟩
                intro u v hu hus he
                have hune : u ≠ n := fun hh => hus (hh ▸ List.mem_cons_self n S)
                have huV : u ∈ V := by
                  rcases List.mem_cons.mp hu with h1 | h1
                  · exact absurd h1 hune
                  · exact h1
                have huS : u ∉ S := fun hc => hus (List.mem_cons_of_mem n hc)
                obtain ⟨hvV, hvS, hlt⟩ := hf u v huV huS he
                refine ⟨List.mem_cons_of_mem n hvV, ?_, hlt⟩
                intro hc
                rcases List.mem_cons.mp hc with h1 | h1
                · exact hnV (h1 ▸ hvV)
                · exact hvS h1
              obtain ⟨hsub2, hS2, hinv2, hmem⟩ :=
                hlist (s.depsOf n) (n :: V) (n :: S) V2 S2 hrec hinv1
              subst hS2
              have hErase : (n :: S).erase n = S := List.erase_cons_head n S
              rw [hErase] at hS'
              subst hV'
              have hS'' : S = S' := hS'.symm
              subst hS''
              refine ⟨fun x hx => hsub2 (List.mem_cons_of_mem n hx),
                hsub2 (List.mem_cons_self n V), hnS, rfl, ?_⟩
              obtain ⟨f, hf⟩ := hinv2
              refine ⟨fun x => if x = n
                then (s.depsOf n).foldr (fun y acc => max (f y) acc) 0 + 1
                else f x, ?_⟩
              intro u v hu hus he
              by_cases hun : u = n
              · subst hun
                obtain ⟨hvV2, hvnS⟩ := hmem v he
                have hvne : v ≠ u := fun hh => hvnS (hh ▸ List.mem_cons_self u S)
                have hvS : v ∉ S := fun hc => hvnS (List.mem_cons_of_mem u hc)
                refine ⟨hvV2, hvS, ?_⟩
                dsimp only
                rw [if_neg hvne, if_pos rfl]
                exact Nat.lt_succ_of_le (le_foldr_max f (s.depsOf u) v he)
              · have huS' : u ∉ n :: S := by
                  intro hc
                  rcases List.mem_cons.mp hc with h1 | h1
                  · exact hun h1
                  · exact hus h1
                obtain ⟨hvV2, hvnS, hlt⟩ := hf u v hu huS' he
                have hvne : v ≠ n := fun hh => hvnS (hh ▸ List.mem_cons_self n S)
                have hvS : v ∉ S := fun hc => hvnS (List.mem_cons_of_mem n hc)
                refine ⟨hvV2, hvS, ?_⟩
                dsimp only
                rw [if_neg hvne, if_neg hun]
                exact hlt
            · have h2 : (match hasCycleList s fuel (s.depsOf n) (n :: V) (n :: S) with
                  | (true, v, r) => (true, v, r)
                  | (false, v, r) => (false, v, r.erase n)) = (false, V', S') := h
              rw [hrec] at h2
              cases h2

theorem cycleScan_nil_inv (s : TaskScheduler) :
    ∀ (tids V S : List String), DfsInv s V S → cycleScan s tids V S = [] →
      ∃ V', DfsInv s V' S ∧ V ⊆ V' ∧ ∀ tid ∈ tids, tid ∈ V' := by
  intro tids
  induction tids with
  | nil =>
    intro V S hinv _
    exact ⟨V, hinv, fun x hx => hx, by simp⟩
  | cons tid rest ih =>
    intro V S hinv h
    unfold cycleScan at h
    by_cases hv : (V.contains tid) = true
    · rw [if_pos hv] at h
      obtain ⟨V', h1, h2, h3⟩ := ih V S hinv h
      refine ⟨V', h1, h2, ?_⟩
      intro x hx
      rcases List.mem_cons.mp hx with hx1 | hx1
      · exact h2 (hx1 ▸ List.mem_of_elem_eq_true hv)
      · exact h3 x hx1
    · rw [if_neg hv] at h
      cases hrec : hasCycleFrom s (s.dfsFuel) tid V S with
      | mk b p =>
        cases p with
        | mk V1 S1 =>
          cases b
          · rw [hrec] at h
            obtain ⟨hsub, htid, htidS, hS1, hinv1⟩ :=
              dfs_false_inv s (s.dfsFuel) tid V S V1 S1 hrec hinv
            rw [hS1] at hinv1 h
            obtain ⟨V', h1, h2, h3⟩ := ih V1 S hinv1 h
            refine ⟨V', h1, fun x hx => h2 (hsub hx), ?_⟩
            intro x hx
            rcases List.mem_cons.mp hx with hx1 | hx1
            · exact h2 (hx1 ▸ htid)
            · exact h3 x hx1
          · rw [hrec] at h
            cases h

/-- If the cycle phase of `validate_dependencies` reports nothing, the
dependency relation is acyclic. -/
theorem validate_empty_acyclic (s : TaskScheduler)
    (h : s.validate_dependencies = []) : Acyclic s := by
  intro l hcyc
  have hscan : cycleScan s s.taskIds [] [] = [] := by
    unfold validate_dependencies at h
    exact (List.append_eq_nil.mp h).2
  obtain ⟨V', hinv, -, hall⟩ := cycleScan_nil_inv s s.taskIds [] []
    ⟨fun _ => 0, by intro u v hu; cases hu⟩ hscan
  obtain ⟨f, hf⟩ := hinv
  refine no_cycle_of_rank s (fun x => x ∈ V') f ?_ l hcyc ?_
  · intro u v hu he
    obtain ⟨h1, -, h3⟩ := hf u v hu (by simp) he
    exact ⟨h1, h3⟩
  · intro x hx
    exact hall x (cycle_mem_taskIds s l hcyc x hx)

theorem missing_error_mem (s : TaskScheduler) (t : AgentTask)
    (ht : t ∈ s.task_registry)
    (hmiss : t.dependencies.dedup.filter (fun d => !(s.taskIds.contains d)) ≠ []) :
    ValidationError.missingDeps t.id
        (t.dependencies.dedup.filter (fun d => !(s.taskIds.contains d)))
      ∈ s.validate_dependencies := by
  unfold validate_dependencies
  apply List.mem_append_left
  unfold missingDepsErrors
  apply List.mem_filterMap.mpr
  refine ⟨t, ht, ?_⟩
  rw [if_neg (by simpa [List.isEmpty_iff] using hmiss)]

/-- C1.  Whenever the dependency relation has a cycle, `validate()` returns
at least one error; for every task with unresolved dependency ids the result
contains an error naming that task and its missing dependencies; hence the
result is empty only when every dependency id resolves and the relation is
acyclic. -/
theorem validate_dependencies_correct (s : TaskScheduler) :
    (∀ l, IsCycle s l → s.validate_dependencies ≠ []) ∧
    (∀ t ∈ s.task_registry,
      t.dependencies.dedup.filter (fun d => !(s.taskIds.contains d)) ≠ [] →
      ValidationError.missingDeps t.id
          (t.dependencies.dedup.filter (fun d => !(s.taskIds.contains d)))
        ∈ s.validate_dependencies) ∧
    (s.validate_dependencies = [] →
      (∀ t ∈ s.task_registry, ∀ d ∈ t.dependencies, d ∈ s.taskIds) ∧ Acyclic s) := by
  refine ⟨?_, ?_, ?_⟩
  · intro l hcyc hval
    exact validate_empty_acyclic s hval l hcyc
  · exact fun t ht hm => missing_error_mem s t ht hm
  · intro hval
    refine ⟨?_, validate_empty_acyclic s hval⟩
    intro t ht d hd
    by_contra hdnot
    have hne : t.dependencies.dedup.filter (fun x => !(s.taskIds.contains x)) ≠ [] := by
      intro he
      exact (List.filter_eq_nil_iff.mp he d (List.mem_dedup.mpr hd)) (by simp [hdnot])
    have hmem := missing_error_mem s t ht hne
    rw [hval] at hmem
    cases hmem

/-- Witness for C1 at `cycleSched` (tasks d ↔ e): the cycle forces at least
one validation error. -/
theorem validate_dependencies_correct_witness :
    cycleSched.validate_dependencies ≠ [] :=
  (validate_dependencies_correct cycleSched).1 ["d", "e"]
    ⟨"d", ["e"], rfl,
      List.Chain.cons (show ("e" : String) ∈ cycleSched.depsOf "d" by decide)
        (List.Chain.cons (show ("d" : String) ∈ cycleSched.depsOf "e" by decide)
          List.Chain.nil)⟩

end TaskScheduler

/-- Witness for the amended C8 at `orchRunning`: cancelling the running
session leaves the task scheduler untouched. -/
theorem cancel_session_spec_witness :
    (orchRunning.cancel_session "s1" 11).2.sched = orchRunning.sched := by
  obtain ⟨st', heq, -, -, -, hsched⟩ :=
    (cancel_session_spec orchRunning "s1" 11).2.2
      { id := "s1", status := "running", progress := 50, message := "going",
        created_at := 0, updated_at := none, agents := ["a1"], tasks := ["t1"] }
      (by rfl) (by decide)
  have h2 : (orchRunning.cancel_session "s1" 11).2 = st' := congrArg Prod.snd heq
  rw [h2]
  exact hsched

end AwsMetaGPT
